import Mathlib

/-!
# modememul: AT command port and modem command set

A shallow embedding of `src/atport.c` and `src/modem.c`.

* A C `char` is a natural number (its byte value); a C string is the list of its
  bytes without the closing NUL.
* Every call of `port->ops->write` is a `Prog.write` node.  A program is run against
  a `Sink`, which records each call and answers it with a scripted result, so any
  behaviour of a transport (including failures) can be replayed.
* A handler of the C code works by side effect on `priv`; here it returns the new
  value of `priv` next to its `int` result.
* `int` counters (`cmdlen`, `rssi`, slot indexes) are unbounded integers: the code
  never brings them near the 32-bit limits on inputs shorter than 2 GiB.
-/

namespace ModemEmul

/-! ## Bytes, strings, errno values -/

/-- The bytes of an ASCII string literal. -/
def bytes (s : String) : List Nat := s.toList.map Char.toNat

/-- Linux `ENOENT`. -/
def ENOENT : Int := 2

/-- Linux `EINVAL`. -/
def EINVAL : Int := 22

/-- The C string stored at the start of a `char` array: the bytes before the first NUL. -/
def cstr (buf : List Nat) : List Nat := buf.takeWhile (fun c => c ≠ 0)

/-- Library `strcspn(str, reject)`: length of the initial segment free of the bytes of
`reject`. -/
def strcspn (str reject : List Nat) : Nat :=
  (str.takeWhile (fun c => !reject.contains c)).length

/-- Library `tolower` in the "C" locale (the program never calls `setlocale`). -/
def tolower (c : Nat) : Nat := if 65 ≤ c ∧ c ≤ 90 then c + 32 else c

/-- Truth of `strncasecmp(a, b, n) == 0` for NUL-free strings `a`, `b`. -/
def strncasecmp_eq (a b : List Nat) (n : Nat) : Bool :=
  (a.take n).map tolower == (b.take n).map tolower

/-- Decimal digits of a natural number, as bytes (`%u`). -/
def fmt_u (n : Nat) : List Nat := (Nat.toDigits 10 n).map Char.toNat

/-- Decimal rendering of an integer (`%d`). -/
def fmt_d (v : Int) : List Nat :=
  if v < 0 then 45 :: fmt_u v.natAbs else fmt_u v.toNat

/-- Left padding with `'0'` up to width `w`. -/
def zero_pad (w : Nat) (ds : List Nat) : List Nat :=
  List.replicate (w - ds.length) 48 ++ ds

/-- Rendering of `%03d`. -/
def fmt_03d (v : Int) : List Nat :=
  if v < 0 then 45 :: zero_pad 2 (fmt_u v.natAbs) else zero_pad 3 (fmt_u v.toNat)

/-! ## Transport -/

/-- Where a transport write comes from: the echo writes of `atport_parse`, or
anything else (handler lines, the line break and the status reply of
`atport_cmd_exec`).  A label of the model only; `atport_puts` and `atport_printf`, the
only writers a handler has, label their writes `reply`. -/
inductive Origin where
  | echo
  | reply
deriving DecidableEq, Repr

/-- Programs over the transport: return a value, or call `port->ops->write` with some
bytes and go on with its `int` result. -/
inductive Prog (α : Type) where
  | ret : α → Prog α
  | write : Origin → List Nat → (Int → Prog α) → Prog α

/-- Sequencing of programs. -/
def Prog.bind {α β : Type} : Prog α → (α → Prog β) → Prog β
  | .ret a, f => f a
  | .write o d k, f => .write o d (fun r => (k r).bind f)

/-- The transport (`ops` and `ops_priv`): the write calls received so far, and the
results the next calls will get (`0` once the script is used up). -/
structure Sink where
  log : List (Origin × List Nat)
  script : List Int
deriving DecidableEq, Repr

/-- One call of `port->ops->write(buf, len, port->ops_priv)`. -/
def ops_write (o : Origin) (buf : List Nat) (t : Sink) : Int × Sink :=
  (t.script.headD 0, { log := t.log ++ [(o, buf)], script := t.script.tail })

/-- Run a program against a transport. -/
def Prog.run {α : Type} : Prog α → Sink → α × Sink
  | .ret a, t => (a, t)
  | .write o d k, t => (k (ops_write o d t).1).run (ops_write o d t).2

/-- A transport whose writes never fail: every scripted result is `0`. -/
def NeverFails (t : Sink) : Prop := ∀ r ∈ t.script, r = 0

/-- A new transport that accepts every write. -/
def Sink.fresh : Sink := { log := [], script := [] }

/-- All bytes received, in order. -/
def Sink.bytes (t : Sink) : List Nat := (t.log.map Prod.snd).flatten

/-- The write calls other than echo. -/
def Sink.replies (t : Sink) : List (List Nat) :=
  (t.log.filter (fun e => e.1 ≠ Origin.echo)).map Prod.snd

/-- The echo write calls. -/
def Sink.echoed (t : Sink) : List (List Nat) :=
  (t.log.filter (fun e => e.1 = Origin.echo)).map Prod.snd

/-! ## atport.c -/

/-- Parser state `pstate`. -/
inductive PState where
  | WAIT_A
  | WAIT_T
  | WAIT_TERM
deriving DecidableEq, Repr

/-- The fields of `struct atport` that change; `ops`/`ops_priv` are the `Sink`,
`cmds` is a parameter of the functions and `cmd_priv` is `Session.priv`. -/
structure atport where
  echo : Bool
  echo_junk : Bool
  pstate : PState
  s3 : Nat
  cmdbuf : List Nat
  cmdlen : Nat
deriving DecidableEq, Repr

/-- The value of `sizeof(port->cmdbuf)`. -/
def sizeof_cmdbuf : Nat := 0x200

/-- An entry of a command table (`struct atcmd`); an absent handler is a NULL pointer.
The closing `{NULL}` entry is the end of the list. -/
structure atcmd (π : Type) where
  name : List Nat
  exec : Option (π → Prog (Int × π)) := none
  read : Option (π → Prog (Int × π)) := none
  test : Option (π → Prog (Int × π)) := none
  write : Option (List Nat → π → Prog (Int × π)) := none

/-- Source `atport_puts`: the string, then CR LF unless the first write gave non-zero. -/
def atport_puts (str : List Nat) : Prog Int :=
  .write .reply str (fun res =>
    if res ≠ 0 then .ret res else .write .reply [13, 10] (fun r => .ret r))

/-- Source `atport_printf`, applied to the text `vsnprintf` would produce without
limit: a 0x100-byte buffer holds its first 255 bytes and a NUL, and
`min(res, sizeof(buf))` bytes of the buffer are written.  The branch for a negative
`vsnprintf` result is left out: the formats used have no conversion that can fail. -/
def atport_printf (text : List Nat) : Prog Int :=
  .write .reply (if text.length < 0x100 then text else text.take 0xff ++ [0]) (fun res =>
    if res ≠ 0 then .ret res else .write .reply [13, 10] (fun r => .ret r))

/-- Source `atport_gen_cmd_e0`. -/
def atport_gen_cmd_e0 (port : atport) : Prog (Int × atport) :=
  .ret (0, { port with echo := false })

/-- Source `atport_gen_cmd_e1`. -/
def atport_gen_cmd_e1 (port : atport) : Prog (Int × atport) :=
  .ret (0, { port with echo := true })

/-- Source `atport_gen_cmd_s3_read`; the `char` is printed as its byte value, which is
what C does for the values below 128 (`s3` is 13 in every session the program makes). -/
def atport_gen_cmd_s3_read (port : atport) : Prog (Int × atport) :=
  (atport_printf (fmt_03d port.s3)).bind (fun res => .ret (res, port))

/-- Source `atport_gen_cmd_stub`. -/
def atport_gen_cmd_stub (port : atport) : Prog (Int × atport) :=
  .ret (0, port)

/-- Source table `atport_gen_cmds`. -/
def atport_gen_cmds : List (atcmd atport) :=
  [ { name := bytes "S3", exec := some atport_gen_cmd_stub,
      read := some atport_gen_cmd_s3_read },
    { name := bytes "E0", exec := some atport_gen_cmd_e0 },
    { name := bytes "E1", exec := some atport_gen_cmd_e1 },
    { name := [], exec := some atport_gen_cmd_stub } ]

/-- The search loop of `atport_cmd_lookup_and_exec`: the first entry with
`strlen(c->name) == cplen && strncasecmp(c->name, str, l) == 0`. -/
def atcmd_lookup {π : Type} (str : List Nat) (cplen : Nat) : List (atcmd π) → Option (atcmd π)
  | [] => none
  | c :: cs =>
    if c.name.length = cplen ∧ strncasecmp_eq c.name str c.name.length = true then some c
    else atcmd_lookup str cplen cs

/-- Source `atport_cmd_lookup_and_exec`. -/
def atport_cmd_lookup_and_exec {π : Type} (str : List Nat) (cmds : List (atcmd π))
    (priv : π) : Prog (Int × π) :=
  let cplen := strcspn str [61, 63]
  match atcmd_lookup str cplen cmds with
  | none => .ret (-ENOENT, priv)
  | some c =>
    let rest := str.drop cplen
    if rest = [61, 63] then
      match c.test with
      | some h => h priv
      | none => .ret (-ENOENT, priv)
    else if rest = [63] then
      match c.read with
      | some h => h priv
      | none => .ret (-ENOENT, priv)
    else if rest = [] then
      match c.exec with
      | some h => h priv
      | none => .ret (-ENOENT, priv)
    else
      match c.write with
      | some h => h (rest.drop 1) priv
      | none => .ret (-ENOENT, priv)

/-- Source `atport_generic_cmd`. -/
def atport_generic_cmd (port : atport) (str : List Nat) : Prog (Int × atport) :=
  atport_cmd_lookup_and_exec str atport_gen_cmds port

/-- Source `atport_custom_cmd` (`cmds` is `port->cmds`, `priv` is `port->cmd_priv`). -/
def atport_custom_cmd {μ : Type} (cmds : List (atcmd μ)) (priv : μ) (str : List Nat) :
    Prog (Int × μ) :=
  atport_cmd_lookup_and_exec str cmds priv

/-- Source `atport_cmd_report_status`. -/
def atport_cmd_report_status (res : Int) : Prog Int :=
  .write .reply (if res = 0 then bytes "\r\nOK\r\n" else bytes "ERROR\r\n") (fun r => .ret r)

/-- A session: the port, the private data of the device commands, and the list of
(command string, result) pairs resolved so far, which is kept for the statements only. -/
structure Session (μ : Type) where
  port : atport
  priv : μ
  trace : List (List Nat × Int)
deriving DecidableEq, Repr

/-- Source `atport_cmd_exec`. -/
def atport_cmd_exec {μ : Type} (cmds : List (atcmd μ)) (st : Session μ) :
    Prog (Int × Session μ) :=
  (atport_puts []).bind (fun res =>
    if res < 0 then .ret (res, st)
    else if st.port.cmdlen > sizeof_cmdbuf then
      (atport_cmd_report_status (-EINVAL)).bind (fun r => .ret (r, st))
    else
      (atport_custom_cmd cmds st.priv (cstr st.port.cmdbuf)).bind (fun c =>
        (if c.1 = -ENOENT then atport_generic_cmd st.port (cstr st.port.cmdbuf)
         else .ret (c.1, st.port)).bind (fun g =>
          (atport_cmd_report_status g.1).bind (fun r =>
            .ret (r, { port := g.2, priv := c.2,
                       trace := st.trace ++ [(cstr st.port.cmdbuf, g.1)] })))))

/-- The bytes `buf[s] .. buf[i-1]` handed to an echo write. -/
def span (buf : List Nat) (s i : Nat) : List Nat := (buf.drop s).take (i - s)

/-- The `for` loop of `atport_parse` and the code after it, from loop variables `i`
and `s`.  One unit of fuel is spent per evaluation of the loop condition; `i--`
followed by `++i` leaves `i` as it is.  `none` means the fuel ran out. -/
def atport_parse_loop {μ : Type} (cmds : List (atcmd μ)) (buf : List Nat) :
    Nat → Nat → Nat → Session μ → Prog (Option (Int × Session μ))
  | 0, _, _, _ => .ret none
  | fuel + 1, i, s, st =>
    if i < buf.length then
      let c := buf.getD i 0
      match st.port.pstate with
      | .WAIT_A =>
        if c = 65 ∨ c = 97 then
          atport_parse_loop cmds buf fuel (i + 1) s
            { st with port := { st.port with pstate := .WAIT_T } }
        else if st.port.echo_junk = false then
          atport_parse_loop cmds buf fuel (i + 1) (s + 1) st
        else
          atport_parse_loop cmds buf fuel (i + 1) s st
      | .WAIT_T =>
        if c = 84 ∨ c = 116 then
          atport_parse_loop cmds buf fuel (i + 1) s
            { st with port := { st.port with pstate := .WAIT_TERM } }
        else
          atport_parse_loop cmds buf fuel i s
            { st with port := { st.port with pstate := .WAIT_A } }
      | .WAIT_TERM =>
        let p1 : atport :=
          { st.port with
            cmdbuf := if st.port.cmdlen < sizeof_cmdbuf then st.port.cmdbuf.set st.port.cmdlen c
                      else st.port.cmdbuf
            cmdlen := st.port.cmdlen + 1 }
        if c ≠ p1.s3 then
          atport_parse_loop cmds buf fuel (i + 1) s { st with port := p1 }
        else
          let n := if p1.cmdlen < sizeof_cmdbuf then p1.cmdlen else sizeof_cmdbuf
          let st2 : Session μ := { st with port := { p1 with cmdbuf := p1.cmdbuf.set (n - 1) 0 } }
          let run : Prog (Option (Int × Session μ)) :=
            (atport_cmd_exec cmds st2).bind (fun e =>
              if e.1 < 0 then .ret (some (e.1, e.2))
              else
                atport_parse_loop cmds buf fuel (i + 1) (i + 1)
                  { e.2 with port := { e.2.port with pstate := .WAIT_A, cmdlen := 0 } })
          if st2.port.echo = true ∧ i > s then
            .write .echo (span buf s i) (fun res =>
              if res < 0 then .ret (some (res, st2)) else run)
          else run
    else if st.port.echo = true ∧ i > s then
      .write .echo (span buf s i) (fun res =>
        if res < 0 then .ret (some (res, st)) else .ret (some (0, st)))
    else .ret (some (0, st))

/-- Source `atport_parse`: the loop started at `i = 0`, `s = 0`, with fuel for the at
most two looks at each byte. -/
def atport_parse {μ : Type} (cmds : List (atcmd μ)) (buf : List Nat) (st : Session μ) :
    Prog (Option (Int × Session μ)) :=
  atport_parse_loop cmds buf (2 * buf.length + 2) 0 0 st

/-- Source `atport_alloc`: the port right after creation (`calloc` zeroes the rest). -/
def atport_alloc : atport :=
  { echo := true, echo_junk := false, pstate := .WAIT_A, s3 := 13,
    cmdbuf := List.replicate 0x200 0, cmdlen := 0 }

/-! ## modem.c -/

/-- One slot of `msgs`; `pdu = none` is the NULL pointer of an empty slot. -/
structure msg where
  state : Int
  pdu : Option (List Nat)
deriving DecidableEq, Repr

/-- Source `struct modem_state` (the `atport` pointer is the transport of `Prog`). -/
structure modem_state where
  iccid : List Nat
  imsi : List Nat
  plmn : List Nat
  name : List Nat
  rssi : Int
  msgs : List msg
deriving DecidableEq, Repr

/-- The value of `ARRAY_SIZE(mstate->msgs)`. -/
def MSGS_SIZE : Nat := 10

/-- The slot `mstate->msgs[i]`. -/
def modem_state.slot (m : modem_state) (i : Nat) : msg :=
  m.msgs.getD i { state := 0, pdu := none }

/-- Library `isspace` in the "C" locale. -/
def isspace (c : Nat) : Bool := c == 32 || (9 ≤ c && c ≤ 13)

/-- Library `isdigit`. -/
def isdigit (c : Nat) : Bool := 48 ≤ c && c ≤ 57

/-- Value of a run of decimal digits. -/
def digits_value (ds : List Nat) : Nat := ds.foldl (fun a d => 10 * a + (d - 48)) 0

/-- The text that the conversion `%d` matches at the start of `str`: none when there is
no match, else the number the matched text spells and the count of bytes up to its end.
White space is skipped, one sign is optional, at least one digit is needed. -/
def scan_decimal (str : List Nat) : Option (Int × Nat) :=
  let s1 := str.dropWhile isspace
  let neg := s1.head? = some 45
  let s2 := if s1.head? = some 45 ∨ s1.head? = some 43 then s1.drop 1 else s1
  let ds := s2.takeWhile isdigit
  if ds = [] then none
  else some (if neg then -(digits_value ds : Int) else (digits_value ds : Int),
             str.length - (s2.length - ds.length))

/-- Library `strtol` on a number outside `long` (64 bits): the result is `LONG_MAX`
or `LONG_MIN`. -/
def strtol_range (v : Int) : Int :=
  if v > 9223372036854775807 then 9223372036854775807
  else if v < -9223372036854775808 then -9223372036854775808
  else v

/-- Conversion of a `long` to `int`: the low 32 bits, read in two's complement. -/
def int_of_long (v : Int) : Int := (v + 2147483648) % 4294967296 - 2147483648

/-- Library call `sscanf(str, "%d%n", &idx, &len)`: `none` when the result is not 1,
else the value stored in `idx` and the count stored in `len`.  ISO C leaves the stored
value undefined when the number is outside `int`; the value here is the one the GNU C
library stores where `long` has 64 bits: the matched text is converted by `strtol` and
the result is stored as `(int)`, so `4294967296` is stored as 0. -/
def sscanf_d_n (str : List Nat) : Option (Int × Nat) :=
  match scan_decimal str with
  | none => none
  | some (v, len) => some (int_of_long (strtol_range v), len)

/-- Source `mdm_cmd_cimi_exec`. -/
def mdm_cmd_cimi_exec (m : modem_state) : Prog (Int × modem_state) :=
  (atport_puts m.imsi).bind (fun res => .ret (res, m))

/-- Source `mdm_cmd_cgmi_exec`. -/
def mdm_cmd_cgmi_exec (m : modem_state) : Prog (Int × modem_state) :=
  (atport_puts (bytes "huawei")).bind (fun res => .ret (res, m))

/-- Source `mdm_cmd_cmgd_write`. -/
def mdm_cmd_cmgd_write (str : List Nat) (m : modem_state) : Prog (Int × modem_state) :=
  match sscanf_d_n str with
  | none => .ret (-EINVAL, m)
  | some (idx, len) =>
    if len ≠ str.length then .ret (-EINVAL, m)
    else if idx < 0 ∨ idx ≥ (MSGS_SIZE : Int) ∨ (m.slot idx.toNat).pdu = none then
      .ret (-EINVAL, m)
    else
      .ret (0, { m with msgs := m.msgs.set idx.toNat { m.slot idx.toNat with pdu := none } })

/-- Source `mdm_cmd_cmgf_write`. -/
def mdm_cmd_cmgf_write (str : List Nat) (m : modem_state) : Prog (Int × modem_state) :=
  if str ≠ bytes "0" then .ret (-EINVAL, m) else .ret (0, m)

/-- The `for` loop of `mdm_cmd_cmgl_write` with `n` slots left, at index `i`. -/
def mdm_cmd_cmgl_loop (m : modem_state) : Nat → Nat → Prog Int
  | 0, _ => .ret 0
  | n + 1, i =>
    match (m.slot i).pdu with
    | none => mdm_cmd_cmgl_loop m n (i + 1)
    | some pdu =>
      (atport_printf (bytes "+CMGL: " ++ fmt_d i ++ bytes "," ++ fmt_d (m.slot i).state
          ++ bytes ",," ++ fmt_d ((pdu.length : Int).tdiv 2))).bind (fun res =>
        if res ≠ 0 then .ret res
        else (atport_puts pdu).bind (fun res2 =>
          if res2 ≠ 0 then .ret res2 else mdm_cmd_cmgl_loop m n (i + 1)))

/-- Source `mdm_cmd_cmgl_write`. -/
def mdm_cmd_cmgl_write (str : List Nat) (m : modem_state) : Prog (Int × modem_state) :=
  if str ≠ bytes "4" then .ret (-EINVAL, m)
  else (mdm_cmd_cmgl_loop m MSGS_SIZE 0).bind (fun res => .ret (res, m))

/-- Source `mdm_cmd_cops_read`. -/
def mdm_cmd_cops_read (m : modem_state) : Prog (Int × modem_state) :=
  (atport_printf (bytes "+COPS: 0,2," ++ [34] ++ m.plmn ++ [34] ++ bytes ",7")).bind
    (fun res => .ret (res, m))

/-- Source `mdm_cmd_cops_write`. -/
def mdm_cmd_cops_write (str : List Nat) (m : modem_state) : Prog (Int × modem_state) :=
  if str ≠ bytes "3,2" then .ret (-EINVAL, m) else .ret (0, m)

/-- Source `mdm_cmd_cpin_read`. -/
def mdm_cmd_cpin_read (m : modem_state) : Prog (Int × modem_state) :=
  (atport_puts (bytes "+CPIN: READY")).bind (fun res => .ret (res, m))

/-- The `signal` value computed by `mdm_cmd_csq_exec` (an `unsigned`). -/
def csq_signal (rssi : Int) : Nat :=
  if rssi = 0 then 99
  else if rssi ≥ -57 then 28
  else if rssi ≤ -107 then 3
  else (((rssi + 113).tdiv 2) % 2 ^ 32).toNat

/-- Source `mdm_cmd_csq_exec`. -/
def mdm_cmd_csq_exec (m : modem_state) : Prog (Int × modem_state) :=
  (atport_printf (bytes "+CSQ: " ++ fmt_u (csq_signal m.rssi) ++ bytes ",99")).bind
    (fun res => .ret (res, m))

/-- The content of `buf` built by `mdm_cmd_iccid_read`: `snprintf` keeps the first 28
bytes of the labelled ICCID, and a shorter text is filled with `28 - (p - buf)` bytes
of the 20-byte string of `F`. -/
def iccid_line (iccid : List Nat) : List Nat :=
  let s := bytes "^ICCID: " ++ iccid
  if s.length < 28 then s ++ (List.replicate 20 70).take (28 - s.length)
  else s.take 28

/-- Source `mdm_cmd_iccid_read`. -/
def mdm_cmd_iccid_read (m : modem_state) : Prog (Int × modem_state) :=
  (atport_puts (iccid_line m.iccid)).bind (fun res => .ret (res, m))

/-- Source `mdm_cmd_sysinfoex_exec`. -/
def mdm_cmd_sysinfoex_exec (m : modem_state) : Prog (Int × modem_state) :=
  (atport_puts (bytes "^SYSINFOEX:2,3,0,1,,6," ++ [34] ++ bytes "LTE" ++ [34]
      ++ bytes ",101," ++ [34] ++ bytes "LTE" ++ [34])).bind (fun res => .ret (res, m))

/-- Source table `modem_atcommands`. -/
def modem_atcommands : List (atcmd modem_state) :=
  [ { name := bytes "+CIMI", exec := some mdm_cmd_cimi_exec },
    { name := bytes "+CGMI", exec := some mdm_cmd_cgmi_exec },
    { name := bytes "+CMGD", write := some mdm_cmd_cmgd_write },
    { name := bytes "+CMGF", write := some mdm_cmd_cmgf_write },
    { name := bytes "+CMGL", write := some mdm_cmd_cmgl_write },
    { name := bytes "+COPS", read := some mdm_cmd_cops_read,
      write := some mdm_cmd_cops_write },
    { name := bytes "+CPIN", read := some mdm_cmd_cpin_read },
    { name := bytes "+CSQ", exec := some mdm_cmd_csq_exec },
    { name := bytes "^ICCID", read := some mdm_cmd_iccid_read },
    { name := bytes "^SYSINFOEX", exec := some mdm_cmd_sysinfoex_exec } ]

/-- The search loop of `modem_add_sms_recv`: the first index from `i` on, with `n`
slots left, whose slot is empty; `i + n` when there is none. -/
def first_free (m : modem_state) : Nat → Nat → Nat
  | 0, i => i
  | n + 1, i => if (m.slot i).pdu = none then i else first_free m n (i + 1)

/-- Source `modem_add_sms_recv`. -/
def modem_add_sms_recv (m : modem_state) (pdu : List Nat) : modem_state :=
  let i := first_free m MSGS_SIZE 0
  if i = MSGS_SIZE then m
  else { m with msgs := m.msgs.set i { state := 0, pdu := some pdu } }

/-- Source `modem_tick`. -/
def modem_tick (m : modem_state) : modem_state :=
  if m.rssi + 2 > -55 then { m with rssi := -109 } else { m with rssi := m.rssi + 2 }

/-- Source `modem_alloc`. -/
def modem_alloc : modem_state :=
  { iccid := bytes "8970169934461058920", imsi := bytes "250692933657186",
    plmn := bytes "25069", name := bytes "FunComm", rssi := -60,
    msgs := List.replicate 10 { state := 0, pdu := none } }

/-- The session made by `main`: `atport_alloc` on a modem state. -/
def Session.init (m : modem_state) : Session modem_state :=
  { port := atport_alloc, priv := m, trace := [] }

/-- Feeding chunks one `atport_parse` call after the other, as the read loop of `main`
does; a call with a negative result ends the session (`none` only without fuel). -/
def feed {μ : Type} (cmds : List (atcmd μ)) :
    List (List Nat) → Session μ → Prog (Option (Int × Session μ))
  | [], st => .ret (some (0, st))
  | buf :: rest, st =>
    (atport_parse cmds buf st).bind (fun r =>
      match r with
      | none => .ret none
      | some (res, st1) => if res < 0 then .ret (some (res, st1)) else feed cmds rest st1)

/-! ## Reference semantics used by the proofs -/

/-- Value and write calls of a program when every write returns `0`. -/
def Prog.eval0 {α : Type} : Prog α → α × List (Origin × List Nat)
  | .ret a => (a, [])
  | .write o d k => ((k 0).eval0.1, (o, d) :: (k 0).eval0.2)

/-- The write calls of a list that are not echo. -/
def non_echo (l : List (Origin × List Nat)) : List (Origin × List Nat) :=
  l.filter (fun e => e.1 ≠ Origin.echo)

/-- What one input byte does to a session when writes succeed, echo left aside: the
body of the `for` loop of `atport_parse`, a byte refused in `WAIT_T` being looked at
again in `WAIT_A`.  Returns the new session and the write calls of `atport_cmd_exec`. -/
def byte_step {μ : Type} (cmds : List (atcmd μ)) (st : Session μ) (c : Nat) :
    Session μ × List (Origin × List Nat) :=
  match st.port.pstate with
  | .WAIT_A =>
    if c = 65 ∨ c = 97 then ({ st with port := { st.port with pstate := .WAIT_T } }, [])
    else (st, [])
  | .WAIT_T =>
    if c = 84 ∨ c = 116 then ({ st with port := { st.port with pstate := .WAIT_TERM } }, [])
    else if c = 65 ∨ c = 97 then ({ st with port := { st.port with pstate := .WAIT_T } }, [])
    else ({ st with port := { st.port with pstate := .WAIT_A } }, [])
  | .WAIT_TERM =>
    let p1 : atport :=
      { st.port with
        cmdbuf := if st.port.cmdlen < sizeof_cmdbuf then st.port.cmdbuf.set st.port.cmdlen c
                  else st.port.cmdbuf
        cmdlen := st.port.cmdlen + 1 }
    if c ≠ p1.s3 then ({ st with port := p1 }, [])
    else
      let n := if p1.cmdlen < sizeof_cmdbuf then p1.cmdlen else sizeof_cmdbuf
      let st2 : Session μ := { st with port := { p1 with cmdbuf := p1.cmdbuf.set (n - 1) 0 } }
      let e := (atport_cmd_exec cmds st2).eval0
      ({ e.1.2 with port := { e.1.2.port with pstate := .WAIT_A, cmdlen := 0 } }, e.2)

/-- The effect of a run of input bytes: `byte_step` folded over them. -/
def byte_steps {μ : Type} (cmds : List (atcmd μ)) :
    Session μ → List Nat → Session μ × List (Origin × List Nat)
  | st, [] => (st, [])
  | st, c :: cs =>
    ((byte_steps cmds (byte_step cmds st c).1 cs).1,
     (byte_step cmds st c).2 ++ (byte_steps cmds (byte_step cmds st c).1 cs).2)

/-- The loop measure of `atport_parse`: two looks per byte left, one more in `WAIT_T`. -/
def parse_measure (len i : Nat) (p : PState) : Nat :=
  2 * (len - i) + (if p = PState.WAIT_T then 1 else 0)

/-- The stores `port->cmdbuf[port->cmdlen] = c` done for a run of bytes accepted in
`WAIT_TERM`, starting at length `n`: bytes beyond the capacity are not stored. -/
def store_bytes (buf : List Nat) (n : Nat) : List Nat → List Nat
  | [] => buf
  | c :: cs => store_bytes (if n < sizeof_cmdbuf then buf.set n c else buf) (n + 1) cs

/-- The name part of a command line in the words of the specification: the
characters before the first `=` or `?`. -/
def line_name (line : List Nat) : List Nat :=
  line.takeWhile (fun c => c ≠ 61 ∧ c ≠ 63)

/-- The text of a command line after its name. -/
def line_rest (line : List Nat) : List Nat :=
  line.drop (line_name line).length

/-- The result that signals an unsupported command or form. -/
def unsupported {π : Type} (priv : π) : Prog (Int × π) := .ret (-ENOENT, priv)

/-- Reference resolution of a command line, written after the specification: the
first entry whose name has exactly the length of the line's name and equals it
ignoring ASCII case is selected; the text after the name picks the handler (nothing:
exec, `?`: read, `=?`: test, `=<param>`: write with `<param>`); a missing entry or
handler is unsupported.  Other texts after the name are outside the four forms and
are given the unsupported result here. -/
def spec_resolve {π : Type} (cmds : List (atcmd π)) (line : List Nat) (priv : π) :
    Prog (Int × π) :=
  match cmds.find? (fun c => decide (c.name.length = (line_name line).length)
      && (c.name.map tolower == (line_name line).map tolower)) with
  | none => unsupported priv
  | some c =>
    match line_rest line with
    | [] => match c.exec with
      | some h => h priv
      | none => unsupported priv
    | [63] => match c.read with
      | some h => h priv
      | none => unsupported priv
    | [61, 63] => match c.test with
      | some h => h priv
      | none => unsupported priv
    | 61 :: param => match c.write with
      | some h => h param priv
      | none => unsupported priv
    | _ => unsupported priv

/-- A session of the modem waiting for a command body: `AT` has just been read. -/
def Session.after_at (m : modem_state) : Session modem_state :=
  { port := { atport_alloc with pstate := .WAIT_TERM }, priv := m, trace := [] }

/-- The result of the device-level resolution inside `atport_cmd_exec`, on the
transport left by the line break. -/
def device_outcome {μ : Type} (cmds : List (atcmd μ)) (st : Session μ) (t : Sink) :
    (Int × μ) × Sink :=
  (atport_custom_cmd cmds st.priv (cstr st.port.cmdbuf)).run ((atport_puts []).run t).2

/-- The result of the generic resolution run after the device-level one. -/
def generic_outcome {μ : Type} (cmds : List (atcmd μ)) (st : Session μ) (t : Sink) :
    (Int × atport) × Sink :=
  (atport_generic_cmd st.port (cstr st.port.cmdbuf)).run (device_outcome cmds st t).2

/-- A session of the modem whose buffer holds the completed command `+COPS=1,0`. -/
def Session.cops_bad (m : modem_state) : Session modem_state :=
  { port := { atport_alloc with
      pstate := .WAIT_TERM
      cmdbuf := bytes "+COPS=1,0" ++ List.replicate 503 0
      cmdlen := 10 },
    priv := m, trace := [] }

/-- The signal value in the words of the specification, with the integer division
of mathematics. -/
def spec_signal (rssi : Int) : Int :=
  if rssi = 0 then 99
  else if rssi ≥ -57 then 28
  else if rssi ≤ -107 then 3
  else (rssi + 113) / 2

/-- The index that `mdm_cmd_cmgd_write` reads from a parameter: the value that `sscanf`
stores in `idx` when the conversion succeeds and nothing follows the number, else
none. -/
def decimal_index (str : List Nat) : Option Int :=
  match sscanf_d_n str with
  | none => none
  | some (v, n) => if n = str.length then some v else none

/-- The number that a parameter spells, in the words of the specification: the whole
parameter is one decimal number, read as an integer of mathematics; none when the
parameter is not a decimal number. -/
def decimal_number (str : List Nat) : Option Int :=
  match scan_decimal str with
  | none => none
  | some (v, n) => if n = str.length then some v else none

/-- The header line `+CMGL: <idx>,<state>,,<n>` of a listing. -/
def cmgl_header (i : Nat) (state : Int) (pdu : List Nat) : List Nat :=
  bytes "+CMGL: " ++ fmt_d i ++ bytes "," ++ fmt_d state ++ bytes ",,"
    ++ fmt_d ((pdu.length : Int) / 2)

/-- The write calls of a `+CMGL=4` listing for slot `i`: none for an empty slot, else
the header line and the PDU line, each followed by CR LF. -/
def cmgl_lines (m : modem_state) (i : Nat) : List (Origin × List Nat) :=
  match (m.slot i).pdu with
  | none => []
  | some pdu =>
    [(Origin.reply, if (cmgl_header i (m.slot i).state pdu).length < 0x100
        then cmgl_header i (m.slot i).state pdu
        else (cmgl_header i (m.slot i).state pdu).take 0xff ++ [0]),
     (Origin.reply, [13, 10]), (Origin.reply, pdu), (Origin.reply, [13, 10])]

/-! ## modem.c: the test message -/

/-- The fields of `struct tm` read by `modem_add_test_sms`.  The calendar fields that
`localtime` gives for a time after 1900 are not negative; `tm_gmtoff` has a sign. -/
structure tm where
  tm_sec : Nat
  tm_min : Nat
  tm_hour : Nat
  tm_mday : Nat
  tm_mon : Nat
  tm_year : Nat
  tm_gmtoff : Int
deriving DecidableEq, Repr

/-- Library `snprintf(dst, size, ...)` applied to the text the format produces: what is
stored before the closing NUL, at most `size - 1` bytes. -/
def snprintf (size : Nat) (text : List Nat) : List Nat := text.take (size - 1)

/-- An upper-case hexadecimal digit. -/
def hex_digit_upper (d : Nat) : Nat := if d < 10 then 48 + d else 55 + d

/-- A lower-case hexadecimal digit. -/
def hex_digit_lower (d : Nat) : Nat := if d < 10 then 48 + d else 87 + d

/-- Rendering of `%02hhX`: the value as `unsigned char`, two upper-case digits. -/
def fmt_02hhX (v : Nat) : List Nat :=
  [hex_digit_upper (v % 256 / 16), hex_digit_upper (v % 256 % 16)]

/-- Rendering of `%1hhx`: the value as `unsigned char`, lower case, no padding. -/
def fmt_1hhx (v : Nat) : List Nat :=
  if v % 256 < 16 then [hex_digit_lower (v % 256)]
  else [hex_digit_lower (v % 256 / 16), hex_digit_lower (v % 256 % 16)]

/-- The `char` arithmetic `'0' + d` of the `scts[k] += d` statements. -/
def digit_char (d : Nat) : Nat := (48 + d) % 256

/-- Source constant `basehdr` of `modem_add_test_sms`. -/
def basehdr : List Nat :=
  bytes "07819700214365F7" ++ bytes "40" ++ bytes "0B819710325476F8" ++ bytes "0000"

/-- Source constant `parts` of `modem_add_test_sms`. -/
def parts : List (List Nat) :=
  [ bytes "986F79B90D4AC3E7F53688FC66BFE5A0799A0E0AB7CB741668FC76CFCB637A99"
      ++ bytes "5E9783C2E4343C3D1FA7DD6750999DA6B340F33219447E83CAE9FABCFD2683E8"
      ++ bytes "E536FC2D07A5DDE334394DAEBBE9A03A1DC40E8BDFF232A84C0791DFECB7BC0C"
      ++ bytes "6A87CFEE3028CC4EC7EB6117A84A0795DDE936284C06B5D3EE741B642FBBD3E1"
      ++ bytes "360B14AFA7E7",
    bytes "40EEF79C2EAF9341657C593E4ED3C3F4F4DB0DAAB3D9E1F6F80D6287C56F797A"
      ++ bytes "0E72A7E769509D0E0AB3D3F17A1A0E2AE341E53068FC6EB7DFE43768FC76CFCB"
      ++ bytes "F17A98EE0211EBE939285CA7974169795D5E0691DFECB71C947683E465B8BC8C"
      ++ bytes "2EBBC965799A0E4ABB41F637BB0EA787E96590BDCC4ED341E5F9BC0C1AA7D9EC"
      ++ bytes "7A1B447EB3DF",
    bytes "E46550B90E32D7CFE9301DE4AEB3D961103C2C4F87E975B90B54C48FCB707AB9"
      ++ bytes "2E07CDD36E3AE83D1E87CBE3301D34AEC3D3E4303D4C07B9DF6E105CFE4E93CB"
      ++ bytes "6E3A0B34AFBBE9A0B41B34AEB3E16150BC9E06BDCDE6F4381D0691CBF3B2BCEE"
      ++ bytes "A683DA6F363B4D0785DDE936284D0695E774103B2C7ECBEB6D17" ]

/-- The value of `ARRAY_SIZE(parts)`. -/
def PARTS_SIZE : Nat := 3

/-- The value `i` passed to the time-zone conversion of `modem_add_test_sms`: the
quarters of an hour of the offset, plus `8 * 10` for a negative offset. -/
def scts_zone (gmtoff : Int) : Nat :=
  if gmtoff < 0
  then (if gmtoff > 0 then gmtoff else -gmtoff).toNat / 60 / 15 + 8 * 10
  else (if gmtoff > 0 then gmtoff else -gmtoff).toNat / 60 / 15

/-- The string `scts` built by `modem_add_test_sms`: twelve characters set by
`memset` and the additions, then the two bytes `snprintf(&scts[0xc], 3, ...)` keeps of
the time zone; read as a C string by the `%s` that follows. -/
def test_sms_scts (t : tm) : List Nat :=
  cstr ([ digit_char (t.tm_year % 100 % 10), digit_char (t.tm_year % 100 / 10),
          digit_char ((t.tm_mon + 1) % 10), digit_char ((t.tm_mon + 1) / 10),
          digit_char (t.tm_mday % 10), digit_char (t.tm_mday / 10),
          digit_char (t.tm_hour % 10), digit_char (t.tm_hour / 10),
          digit_char (t.tm_min % 10), digit_char (t.tm_min / 10),
          digit_char (t.tm_sec % 10), digit_char (t.tm_sec / 10) ]
        ++ snprintf 3 (fmt_1hhx (scts_zone t.tm_gmtoff % 10)
            ++ fmt_1hhx (scts_zone t.tm_gmtoff / 10)))

/-- The string `udh` after the template `snprintf`, for the byte `r` that
`(unsigned char)random()` gave. -/
def test_sms_udh_template (r : Nat) : List Nat :=
  snprintf 13 (fmt_02hhX 5 ++ fmt_02hhX 0 ++ fmt_02hhX 3 ++ fmt_02hhX r
    ++ fmt_02hhX PARTS_SIZE ++ fmt_02hhX 0)

/-- The string `udh` in loop round `i`, after `snprintf(&udh[5 * 2], 3, "%02hhX", i + 1)`. -/
def test_sms_udh (r i : Nat) : List Nat :=
  cstr ((test_sms_udh_template r).take (5 * 2) ++ snprintf 3 (fmt_02hhX (i + 1)))

/-- The septet count `l` computed in loop round `i`. -/
def test_sms_udl (i : Nat) : Nat := ((parts.getD i []).length + 12) / 2 * 8 / 7

/-- The string in `buf` handed to `modem_add_sms_recv` in loop round `i`: the first
`snprintf` stores `basehdr` and `scts` and returns `off`, the second one writes the
rest at `&buf[off]` within `sizeof(buf) - off` bytes. -/
def test_sms_pdu (t : tm) (r i : Nat) : List Nat :=
  cstr ((snprintf 0x200 (basehdr ++ test_sms_scts t)).take (basehdr ++ test_sms_scts t).length
    ++ snprintf (0x200 - (basehdr ++ test_sms_scts t).length)
        (fmt_02hhX (test_sms_udl i) ++ test_sms_udh r i ++ parts.getD i []))

/-- The `for` loop of `modem_add_test_sms` with `n` rounds left, at index `i`. -/
def test_sms_loop (t : tm) (r : Nat) : Nat → Nat → modem_state → modem_state
  | 0, _, m => m
  | n + 1, i, m => test_sms_loop t r n (i + 1) (modem_add_sms_recv m (test_sms_pdu t r i))

/-- Source `modem_add_test_sms`, for the local time `t` and the random byte `r`. -/
def modem_add_test_sms (m : modem_state) (t : tm) (r : Nat) : modem_state :=
  test_sms_loop t r PARTS_SIZE 0 m

/-- A broken-down time as `localtime` gives it. -/
def tm.valid (t : tm) : Prop :=
  t.tm_sec ≤ 60 ∧ t.tm_min ≤ 59 ∧ t.tm_hour ≤ 23 ∧ 1 ≤ t.tm_mday ∧ t.tm_mday ≤ 31
    ∧ t.tm_mon ≤ 11

instance (t : tm) : Decidable t.valid := by
  unfold tm.valid
  infer_instance

/-- The value of a hexadecimal digit character. -/
def hex_value (c : Nat) : Nat :=
  if 48 ≤ c ∧ c ≤ 57 then c - 48
  else if 65 ≤ c ∧ c ≤ 70 then c - 55
  else if 97 ≤ c ∧ c ≤ 102 then c - 87
  else 0

/-- The octet number `j` of a hexadecimal string as the pair of its high nibble (first
character) and low nibble (second character). -/
def octet_at (s : List Nat) (j : Nat) : Nat × Nat :=
  (hex_value (s.getD (2 * j) 0), hex_value (s.getD (2 * j + 1) 0))

/-- A sample local time: 2023-11-25 13:47:52, two hours east of Greenwich. -/
def tm.sample : tm :=
  { tm_sec := 52, tm_min := 47, tm_hour := 13, tm_mday := 25, tm_mon := 10,
    tm_year := 123, tm_gmtoff := 7200 }

/-- An operation on the message store: the insertion of a PDU, or a `+CMGD` write
with some parameter text. -/
inductive StoreOp where
  | insert : List Nat → StoreOp
  | delete : List Nat → StoreOp
deriving DecidableEq, Repr

/-- The modem state after one store operation (`+CMGD` never writes, so the transport
does not matter). -/
def store_op (m : modem_state) : StoreOp → modem_state
  | .insert pdu => modem_add_sms_recv m pdu
  | .delete str => (mdm_cmd_cmgd_write str m).eval0.1.2

/-- The modem state after a sequence of store operations. -/
def store_ops : List StoreOp → modem_state → modem_state
  | [], m => m
  | op :: ops, m => store_ops ops (store_op m op)

/-- The write calls a `+CMGL=4` listing owes to slot `i`, in the words of the
specification: none for an empty slot, else the header line, CR LF, the PDU text,
CR LF. -/
def listing_lines (m : modem_state) (i : Nat) : List (Origin × List Nat) :=
  match (m.slot i).pdu with
  | none => []
  | some pdu =>
    [(Origin.reply, cmgl_header i (m.slot i).state pdu), (Origin.reply, bytes "\r\n"),
     (Origin.reply, pdu), (Origin.reply, bytes "\r\n")]

/-- The modem state after `n` calls of `modem_tick`. -/
def modem_ticks : Nat → modem_state → modem_state
  | 0, m => m
  | n + 1, m => modem_ticks n (modem_tick m)

/-- Every value the program can return, whatever results its writes get, has the
property `P`. -/
def Prog.all {α : Type} (P : α → Prop) : Prog α → Prop
  | .ret a => P a
  | .write _ _ k => ∀ r, Prog.all P (k r)

/-! # Theorems -/

/-! ## Programs and transports -/

theorem Prog.run_bind {α β : Type} (p : Prog α) (f : α → Prog β) (t : Sink) :
    (p.bind f).run t = (f (p.run t).1).run (p.run t).2 := by
  induction p generalizing t with
  | ret a => rfl
  | write o d k ih => simp only [Prog.bind, Prog.run]; exact ih _ _

theorem Prog.eval0_bind {α β : Type} (p : Prog α) (f : α → Prog β) :
    (p.bind f).eval0 = ((f p.eval0.1).eval0.1, p.eval0.2 ++ (f p.eval0.1).eval0.2) := by
  induction p with
  | ret a => simp [Prog.bind, Prog.eval0]
  | write o d k ih => simp [Prog.bind, Prog.eval0, ih]

theorem ops_write_neverFails (o : Origin) (d : List Nat) (t : Sink) (h : NeverFails t) :
    (ops_write o d t).1 = 0 ∧ (ops_write o d t).2.log = t.log ++ [(o, d)]
      ∧ NeverFails (ops_write o d t).2 := by
  refine ⟨?_, rfl, ?_⟩
  · cases hs : t.script with
    | nil => simp [ops_write, hs]
    | cons r rs => simpa [ops_write, hs] using h r (by simp [hs])
  · intro r hr
    exact h r (List.mem_of_mem_tail hr)

/-- Against a transport that never fails a program returns its `eval0` value and
appends its `eval0` write calls to the log. -/
theorem Prog.run_neverFails {α : Type} (p : Prog α) (t : Sink) (h : NeverFails t) :
    (p.run t).1 = p.eval0.1 ∧ (p.run t).2.log = t.log ++ p.eval0.2
      ∧ NeverFails (p.run t).2 := by
  induction p generalizing t with
  | ret a => simp [Prog.run, Prog.eval0, h]
  | write o d k ih =>
    obtain ⟨h1, h2, h3⟩ := ops_write_neverFails o d t h
    obtain ⟨i1, i2, i3⟩ := ih (ops_write o d t).1 (ops_write o d t).2 h3
    simp only [Prog.run, Prog.eval0]
    rw [h1] at i1 i2 i3
    rw [h1]
    refine ⟨i1, ?_, i3⟩
    rw [i2, h2]; simp

theorem Prog.eval0_write {α : Type} (o : Origin) (d : List Nat) (k : Int → Prog α) :
    (Prog.write o d k).eval0 = ((k 0).eval0.1, (o, d) :: (k 0).eval0.2) := rfl

theorem atport_puts_eval0 (str : List Nat) :
    (atport_puts str).eval0 = (0, [(Origin.reply, str), (Origin.reply, [13, 10])]) := by
  simp [atport_puts, Prog.eval0]

theorem atport_printf_eval0 (text : List Nat) :
    (atport_printf text).eval0
      = (0, [(Origin.reply, if text.length < 0x100 then text else text.take 0xff ++ [0]),
             (Origin.reply, [13, 10])]) := by
  simp [atport_printf, Prog.eval0]

theorem atport_cmd_report_status_eval0 (res : Int) :
    (atport_cmd_report_status res).eval0
      = (0, [(Origin.reply, if res = 0 then bytes "\r\nOK\r\n" else bytes "ERROR\r\n")]) := by
  simp [atport_cmd_report_status, Prog.eval0]

/-- With writes that succeed `atport_cmd_exec` returns `0`. -/
theorem atport_cmd_exec_eval0_res {μ : Type} (cmds : List (atcmd μ)) (st : Session μ) :
    (atport_cmd_exec cmds st).eval0.1.1 = 0 := by
  unfold atport_cmd_exec
  rw [Prog.eval0_bind, atport_puts_eval0]
  simp only [lt_self_iff_false, if_false]
  split
  · rw [Prog.eval0_bind, atport_cmd_report_status_eval0]; rfl
  · rw [Prog.eval0_bind, Prog.eval0_bind, Prog.eval0_bind, atport_cmd_report_status_eval0]; rfl

theorem non_echo_append (a b : List (Origin × List Nat)) :
    non_echo (a ++ b) = non_echo a ++ non_echo b := by
  simp [non_echo]

theorem non_echo_echo_cons (d : List Nat) (l : List (Origin × List Nat)) :
    non_echo ((Origin.echo, d) :: l) = non_echo l := by
  simp [non_echo]

/-- The loop of `atport_parse` never runs out of fuel above its measure and, with
writes that succeed, ends with result `0` in the session `byte_steps` computes, its
write calls other than echo being those of `byte_steps`. -/
theorem atport_parse_loop_eval0 {μ : Type} (cmds : List (atcmd μ)) (buf : List Nat) :
    ∀ (fuel i s : Nat) (st : Session μ),
      parse_measure buf.length i st.port.pstate < fuel →
      (atport_parse_loop cmds buf fuel i s st).eval0.1
          = some (0, (byte_steps cmds st (buf.drop i)).1)
        ∧ non_echo (atport_parse_loop cmds buf fuel i s st).eval0.2
          = non_echo (byte_steps cmds st (buf.drop i)).2 := by
  intro fuel
  induction fuel with
  | zero => intro i s st h; exact absurd h (Nat.not_lt_zero _)
  | succ fuel ih =>
    intro i s st h
    rw [atport_parse_loop]
    by_cases hi : i < buf.length
    · rw [if_pos hi]
      have hd : buf.drop i = buf.getD i 0 :: buf.drop (i + 1) := by
        rw [List.drop_eq_getElem_cons hi]
        simp [List.getD_eq_getElem?_getD, List.getElem?_eq_getElem hi]
      rw [hd]
      generalize buf.getD i 0 = c at *
      cases hp : st.port.pstate with
      | WAIT_A =>
        simp only [hp, parse_measure] at h ⊢
        simp only [byte_steps, byte_step, hp]
        by_cases hc : c = 65 ∨ c = 97
        · simp only [if_pos hc]
          have := ih (i + 1) s { st with port := { st.port with pstate := .WAIT_T } }
            (by simp only [parse_measure]; simp; omega)
          simpa using this
        · simp only [if_neg hc]
          by_cases hj : st.port.echo_junk = false
          · simp only [if_pos hj]
            have := ih (i + 1) (s + 1) st (by simp only [parse_measure, hp]; simp; omega)
            simpa using this
          · simp only [if_neg hj]
            have := ih (i + 1) s st (by simp only [parse_measure, hp]; simp; omega)
            simpa using this
      | WAIT_T =>
        simp only [hp, parse_measure] at h ⊢
        simp only [byte_steps, byte_step, hp]
        by_cases hc : c = 84 ∨ c = 116
        · simp only [if_pos hc]
          have := ih (i + 1) s { st with port := { st.port with pstate := .WAIT_TERM } }
            (by simp only [parse_measure]; simp; omega)
          simpa using this
        · simp only [if_neg hc]
          have := ih i s { st with port := { st.port with pstate := .WAIT_A } }
            (by simp only [parse_measure]; simp at h ⊢; omega)
          rw [hd] at this
          simp only [byte_steps, byte_step] at this
          by_cases ha : c = 65 ∨ c = 97
          · simp only [if_pos ha] at this ⊢
            simpa using this
          · simp only [if_neg ha] at this ⊢
            simpa using this
      | WAIT_TERM =>
        simp only [hp, parse_measure] at h ⊢
        simp only [byte_steps, byte_step, hp]
        by_cases hc : c ≠ st.port.s3
        · simp only [if_pos hc]
          have := ih (i + 1) s
            { st with port := { st.port with
                cmdbuf := if st.port.cmdlen < sizeof_cmdbuf
                          then st.port.cmdbuf.set st.port.cmdlen c else st.port.cmdbuf
                cmdlen := st.port.cmdlen + 1 } }
            (by simp only [parse_measure, hp]; simp; omega)
          simpa [hp] using this
        · simp only [if_neg hc]
          have hrun : ∀ st2 : Session μ,
              ((atport_cmd_exec cmds st2).bind (fun e =>
                if e.1 < 0 then Prog.ret (some (e.1, e.2))
                else atport_parse_loop cmds buf fuel (i + 1) (i + 1)
                  { e.2 with port := { e.2.port with pstate := .WAIT_A, cmdlen := 0 } })).eval0
              = ((atport_parse_loop cmds buf fuel (i + 1) (i + 1)
                    { (atport_cmd_exec cmds st2).eval0.1.2 with
                      port := { (atport_cmd_exec cmds st2).eval0.1.2.port with
                                pstate := .WAIT_A, cmdlen := 0 } }).eval0.1,
                 (atport_cmd_exec cmds st2).eval0.2 ++
                 (atport_parse_loop cmds buf fuel (i + 1) (i + 1)
                    { (atport_cmd_exec cmds st2).eval0.1.2 with
                      port := { (atport_cmd_exec cmds st2).eval0.1.2.port with
                                pstate := .WAIT_A, cmdlen := 0 } }).eval0.2) := by
            intro st2
            rw [Prog.eval0_bind]
            simp [atport_cmd_exec_eval0_res]
          have key : ∀ st3 : Session μ,
              (atport_parse_loop cmds buf fuel (i + 1) (i + 1)
                  { st3 with port := { st3.port with pstate := .WAIT_A, cmdlen := 0 } }).eval0.1
                = some (0, (byte_steps cmds
                    { st3 with port := { st3.port with pstate := .WAIT_A, cmdlen := 0 } }
                    (buf.drop (i + 1))).1)
              ∧ non_echo (atport_parse_loop cmds buf fuel (i + 1) (i + 1)
                  { st3 with port := { st3.port with pstate := .WAIT_A, cmdlen := 0 } }).eval0.2
                = non_echo (byte_steps cmds
                    { st3 with port := { st3.port with pstate := .WAIT_A, cmdlen := 0 } }
                    (buf.drop (i + 1))).2 := by
            intro st3
            exact ih (i + 1) (i + 1) _ (by simp only [parse_measure]; simp; omega)
          by_cases he : st.port.echo = true ∧ i > s
          · simp only [if_pos he, Prog.eval0_write, lt_self_iff_false, if_false, hrun,
              non_echo_echo_cons, non_echo_append]
            exact ⟨(key _).1, by rw [(key _).2]⟩
          · simp only [if_neg he, hrun, non_echo_append]
            exact ⟨(key _).1, by rw [(key _).2]⟩
    · rw [if_neg hi]
      have hd : buf.drop i = [] := List.drop_eq_nil_of_le (Nat.le_of_not_lt hi)
      rw [hd]
      by_cases he : st.port.echo = true ∧ i > s
      · simp [if_pos he, Prog.eval0, byte_steps, non_echo]
      · simp [if_neg he, Prog.eval0, byte_steps, non_echo]

/-! ## Chunk boundaries (C1, C2) -/

theorem byte_steps_append {μ : Type} (cmds : List (atcmd μ)) (a b : List Nat) :
    ∀ st : Session μ,
      byte_steps cmds st (a ++ b)
        = ((byte_steps cmds (byte_steps cmds st a).1 b).1,
           (byte_steps cmds st a).2 ++ (byte_steps cmds (byte_steps cmds st a).1 b).2) := by
  induction a with
  | nil => intro st; simp [byte_steps]
  | cons c cs ih => intro st; simp [byte_steps, ih]

/-- With writes that succeed `atport_parse` returns `0` in the session `byte_steps`
computes from the whole buffer. -/
theorem atport_parse_eval0 {μ : Type} (cmds : List (atcmd μ)) (buf : List Nat)
    (st : Session μ) :
    (atport_parse cmds buf st).eval0.1 = some (0, (byte_steps cmds st buf).1)
      ∧ non_echo (atport_parse cmds buf st).eval0.2 = non_echo (byte_steps cmds st buf).2 := by
  have h := atport_parse_loop_eval0 cmds buf (2 * buf.length + 2) 0 0 st
    (by unfold parse_measure; split <;> omega)
  simpa [atport_parse] using h

theorem feed_eval0 {μ : Type} (cmds : List (atcmd μ)) (chunks : List (List Nat)) :
    ∀ st : Session μ,
      (feed cmds chunks st).eval0.1 = some (0, (byte_steps cmds st chunks.flatten).1)
        ∧ non_echo (feed cmds chunks st).eval0.2
          = non_echo (byte_steps cmds st chunks.flatten).2 := by
  induction chunks with
  | nil => intro st; simp [feed, Prog.eval0, byte_steps]
  | cons buf rest ih =>
    intro st
    obtain ⟨h1, h2⟩ := atport_parse_eval0 cmds buf st
    obtain ⟨i1, i2⟩ := ih (byte_steps cmds st buf).1
    rw [feed, Prog.eval0_bind, h1]
    simp only [lt_self_iff_false, if_false, List.flatten_cons, byte_steps_append,
      non_echo_append, h2, i1, i2, and_self]

theorem Sink.replies_eq (t : Sink) : t.replies = (non_echo t.log).map Prod.snd := rfl

/-- C2: chunk-boundary invariance of command execution.  For every command table,
session, transport that never fails and every split of the input into chunks,
feeding the chunks one `atport_parse` call after the other ends with result 0 in
the same session (parser state, buffer, flags, terminator, device data, and the list
of resolved command strings with their results) and with the same write calls other
than echo as a single `atport_parse` call on the whole input. -/
theorem chunk_invariance_of_execution {μ : Type} (cmds : List (atcmd μ)) (st : Session μ)
    (chunks : List (List Nat)) (t : Sink) (h : NeverFails t) :
    (∃ st1, ((feed cmds chunks st).run t).1 = some (0, st1))
      ∧ ((feed cmds chunks st).run t).1 = ((atport_parse cmds chunks.flatten st).run t).1
      ∧ ((feed cmds chunks st).run t).2.replies
          = ((atport_parse cmds chunks.flatten st).run t).2.replies := by
  obtain ⟨a1, a2, _⟩ := Prog.run_neverFails (feed cmds chunks st) t h
  obtain ⟨b1, b2, _⟩ := Prog.run_neverFails (atport_parse cmds chunks.flatten st) t h
  obtain ⟨f1, f2⟩ := feed_eval0 cmds chunks st
  obtain ⟨p1, p2⟩ := atport_parse_eval0 cmds chunks.flatten st
  refine ⟨⟨_, a1.trans f1⟩, ?_, ?_⟩
  · rw [a1, b1, f1, p1]
  · rw [Sink.replies_eq, Sink.replies_eq, a2, b2, non_echo_append, non_echo_append, f2, p2]

theorem chunk_invariance_of_execution_witness :
    NeverFails Sink.fresh
      ∧ (∃ st1, ((feed modem_atcommands [bytes "xA", bytes "T+C", bytes "SQ\rA"]
            (Session.init modem_alloc)).run Sink.fresh).1 = some (0, st1))
      ∧ ((feed modem_atcommands [bytes "xA", bytes "T+C", bytes "SQ\rA"]
            (Session.init modem_alloc)).run Sink.fresh).1
          = ((atport_parse modem_atcommands [bytes "xA", bytes "T+C", bytes "SQ\rA"].flatten
              (Session.init modem_alloc)).run Sink.fresh).1
      ∧ ((feed modem_atcommands [bytes "xA", bytes "T+C", bytes "SQ\rA"]
            (Session.init modem_alloc)).run Sink.fresh).2.replies
          = ((atport_parse modem_atcommands [bytes "xA", bytes "T+C", bytes "SQ\rA"].flatten
              (Session.init modem_alloc)).run Sink.fresh).2.replies :=
  ⟨(fun _ hr => by cases hr),
   chunk_invariance_of_execution modem_atcommands (Session.init modem_alloc)
     [bytes "xA", bytes "T+C", bytes "SQ\rA"] Sink.fresh (fun _ hr => by cases hr)⟩

/-- C1: the echo depends on the chunk boundaries.  The bytes `AxAT\r` fed to a new
session in one call are answered with `xAT\r\n\r\nOK\r\n`; fed as `A` and `xAT\r`
they are answered with `AAT\r\n\r\nOK\r\n`. -/
theorem echo_depends_on_chunk_split :
    ((atport_parse modem_atcommands (bytes "AxAT\r") (Session.init modem_alloc)).run
        Sink.fresh).2.bytes = bytes "xAT\r\n\r\nOK\r\n"
      ∧ ((feed modem_atcommands [bytes "A", bytes "xAT\r"] (Session.init modem_alloc)).run
        Sink.fresh).2.bytes = bytes "AAT\r\n\r\nOK\r\n"
      ∧ [bytes "A", bytes "xAT\r"].flatten = bytes "AxAT\r" := by
  decide

/-! ## Overflow policy (C3) -/

/-- Bytes other than the terminator met in `WAIT_TERM` are only stored and counted. -/
theorem byte_steps_body {μ : Type} (cmds : List (atcmd μ)) (body : List Nat) :
    ∀ st : Session μ, st.port.pstate = .WAIT_TERM → st.port.s3 ∉ body →
      byte_steps cmds st body
        = ({ st with port := { st.port with
              cmdbuf := store_bytes st.port.cmdbuf st.port.cmdlen body
              cmdlen := st.port.cmdlen + body.length } }, []) := by
  induction body with
  | nil => intro st _ _; simp [byte_steps, store_bytes]
  | cons c cs ih =>
    intro st hp hs
    have hc : c ≠ st.port.s3 := fun h => hs (by simp [h])
    have hs2 : st.port.s3 ∉ cs := fun h => hs (List.mem_cons_of_mem _ h)
    simp only [byte_steps, byte_step, hp, if_pos hc]
    rw [ih]
    · simp [store_bytes, Nat.add_assoc, Nat.add_comm 1]
    · rfl
    · exact hs2

theorem store_bytes_fits (body : List Nat) :
    ∀ pre suf : List Nat, pre.length + body.length ≤ sizeof_cmdbuf →
      body.length ≤ suf.length →
      store_bytes (pre ++ suf) pre.length body = pre ++ body ++ suf.drop body.length := by
  induction body with
  | nil => intro pre suf _ _; simp [store_bytes]
  | cons c cs ih =>
    intro pre suf h1 h2
    cases suf with
    | nil => simp at h2
    | cons x xs =>
      have hlt : pre.length < sizeof_cmdbuf := by simp at h1; omega
      have := ih (pre ++ [c]) xs (by simp at h1 ⊢; omega) (by simpa using h2)
      simp only [store_bytes, if_pos hlt]
      simpa using this

theorem atport_cmd_exec_eval0_overflow {μ : Type} (cmds : List (atcmd μ)) (st : Session μ)
    (h : st.port.cmdlen > sizeof_cmdbuf) :
    (atport_cmd_exec cmds st).eval0
      = ((0, st), [(Origin.reply, []), (Origin.reply, [13, 10]),
                   (Origin.reply, bytes "ERROR\r\n")]) := by
  unfold atport_cmd_exec
  rw [Prog.eval0_bind, atport_puts_eval0]
  simp only [lt_self_iff_false, if_false, if_pos h]
  rw [Prog.eval0_bind, atport_cmd_report_status_eval0]
  simp [Prog.eval0, EINVAL]

theorem atport_cmd_exec_eval0_trace {μ : Type} (cmds : List (atcmd μ)) (st : Session μ)
    (h : ¬ st.port.cmdlen > sizeof_cmdbuf) :
    ∃ res, (atport_cmd_exec cmds st).eval0.1.2.trace
      = st.trace ++ [(cstr st.port.cmdbuf, res)] := by
  unfold atport_cmd_exec
  rw [Prog.eval0_bind, atport_puts_eval0]
  simp only [lt_self_iff_false, if_false, if_neg h]
  rw [Prog.eval0_bind, Prog.eval0_bind, Prog.eval0_bind]
  exact ⟨_, rfl⟩

theorem cstr_body (body rest : List Nat) : cstr (body ++ 0 :: rest) = cstr body := by
  induction body with
  | nil => simp [cstr]
  | cons c cs ih =>
    simp only [cstr, List.cons_append] at ih ⊢
    by_cases hc : c = 0
    · simp [hc]
    · simp only [List.takeWhile_cons, hc, not_false_eq_true, decide_True, if_true, ih]

theorem cstr_of_no_nul (body : List Nat) (h : 0 ∉ body) : cstr body = body := by
  unfold cstr
  rw [List.takeWhile_eq_self_iff]
  intro x hx
  simpa using fun hx0 : x = 0 => h (hx0 ▸ hx)

theorem terminated_cmdbuf (body B : List Nat) (x : Nat) (h1 : body.length + 1 ≤ sizeof_cmdbuf)
    (h2 : B.length = sizeof_cmdbuf) :
    (if body.length < sizeof_cmdbuf then (store_bytes B 0 body).set body.length x
      else store_bytes B 0 body).set
        ((if body.length + 1 < sizeof_cmdbuf then body.length + 1 else sizeof_cmdbuf) - 1) 0
      = body ++ 0 :: B.drop (body.length + 1) := by
  have hs := store_bytes_fits body [] B (by simpa using by omega) (by omega)
  simp only [List.nil_append, List.length_nil] at hs
  have hn : (if body.length + 1 < sizeof_cmdbuf then body.length + 1 else sizeof_cmdbuf) - 1
      = body.length := by split <;> omega
  have hlt : body.length < sizeof_cmdbuf := by omega
  have hd : B.drop body.length = B.getD body.length 0 :: B.drop (body.length + 1) := by
    rw [List.drop_eq_getElem_cons (by omega)]
    simp [List.getD_eq_getElem?_getD, List.getElem?_eq_getElem (show body.length < B.length by omega)]
  rw [hn, if_pos hlt, hs, hd]
  simp [List.set_append]

end ModemEmul
namespace ModemEmul

/-- What `byte_steps` does with a command body followed by the terminator, from
`WAIT_TERM` with an empty command. -/
theorem byte_steps_command {μ : Type} (cmds : List (atcmd μ)) (st : Session μ)
    (body : List Nat) (hT : st.port.pstate = .WAIT_TERM) (h0 : st.port.cmdlen = 0)
    (hb : st.port.s3 ∉ body) :
    byte_steps cmds st (body ++ [st.port.s3])
      = byte_step cmds
          { st with port := { st.port with
              cmdbuf := store_bytes st.port.cmdbuf 0 body, cmdlen := body.length } }
          st.port.s3 := by
  rw [byte_steps_append, byte_steps_body cmds body st hT hb]
  simp [byte_steps, h0]

/-- C3: overflow policy.  From `WAIT_TERM` with an empty command, a body free of the
terminator byte followed by the terminator ends, on a transport that never fails, with
result 0 in `WAIT_A` with `cmdlen = 0`.  When the length with the terminator exceeds
512, nothing is resolved (no trace entry, device data and flags untouched, whatever
the command table is) and the writes are the line break and `ERROR`.  When it is at
most 512, one command string is resolved, and for a body without NUL it is the whole
body. -/
theorem overflow_policy {μ : Type} (cmds : List (atcmd μ)) (st : Session μ)
    (body : List Nat) (t : Sink) (hT : st.port.pstate = .WAIT_TERM)
    (h0 : st.port.cmdlen = 0) (hB : st.port.cmdbuf.length = sizeof_cmdbuf)
    (hb : st.port.s3 ∉ body) (ht : NeverFails t) :
    ∃ st1, ((atport_parse cmds (body ++ [st.port.s3]) st).run t).1 = some (0, st1)
      ∧ st1.port.pstate = .WAIT_A ∧ st1.port.cmdlen = 0
      ∧ (sizeof_cmdbuf < body.length + 1 →
          st1.trace = st.trace ∧ st1.priv = st.priv ∧ st1.port.echo = st.port.echo
            ∧ st1.port.echo_junk = st.port.echo_junk ∧ st1.port.s3 = st.port.s3
            ∧ ((atport_parse cmds (body ++ [st.port.s3]) st).run t).2.replies
                = t.replies ++ [[], [13, 10], bytes "ERROR\r\n"])
      ∧ (body.length + 1 ≤ sizeof_cmdbuf →
          ∃ res, st1.trace = st.trace ++ [(cstr body, res)] ∧ (0 ∉ body → cstr body = body)) := by
  obtain ⟨a1, a2, _⟩ := Prog.run_neverFails (atport_parse cmds (body ++ [st.port.s3]) st) t ht
  obtain ⟨p1, p2⟩ := atport_parse_eval0 cmds (body ++ [st.port.s3]) st
  rw [byte_steps_command cmds st body hT h0 hb] at p1 p2
  refine ⟨_, a1.trans p1, ?_, ?_, ?_, ?_⟩
  · simp [byte_step, hT]
  · simp [byte_step, hT]
  · intro hov
    have hgt : body.length + 1 > sizeof_cmdbuf := hov
    simp only [byte_step, hT, ne_eq, not_true_eq_false, if_false] at p2 ⊢
    rw [atport_cmd_exec_eval0_overflow cmds _ (by simpa using hgt)] at p2 ⊢
    refine ⟨rfl, rfl, rfl, rfl, rfl, ?_⟩
    rw [Sink.replies_eq, Sink.replies_eq, a2, non_echo_append, p2]
    simp [non_echo]
  · intro hfit
    simp only [byte_step, hT, ne_eq, not_true_eq_false, if_false]
    obtain ⟨res, hres⟩ := atport_cmd_exec_eval0_trace cmds
      { st with port := { st.port with
          pstate := .WAIT_TERM
          cmdbuf := (if body.length < sizeof_cmdbuf
              then (store_bytes st.port.cmdbuf 0 body).set body.length st.port.s3
              else store_bytes st.port.cmdbuf 0 body).set
                ((if body.length + 1 < sizeof_cmdbuf then body.length + 1
                  else sizeof_cmdbuf) - 1) 0
          cmdlen := body.length + 1 } }
      (by simpa using hfit)
    refine ⟨res, ?_, cstr_of_no_nul body⟩
    rw [terminated_cmdbuf body _ _ hfit hB] at hres ⊢
    rw [cstr_body] at hres
    simpa using hres

theorem overflow_policy_witness :
    (Session.after_at modem_alloc).port.pstate = .WAIT_TERM
      ∧ (Session.after_at modem_alloc).port.cmdlen = 0
      ∧ (Session.after_at modem_alloc).port.cmdbuf.length = sizeof_cmdbuf
      ∧ (Session.after_at modem_alloc).port.s3 ∉ List.replicate 512 66
      ∧ NeverFails Sink.fresh
      ∧ ∃ st1, ((atport_parse modem_atcommands
            (List.replicate 512 66 ++ [(Session.after_at modem_alloc).port.s3])
            (Session.after_at modem_alloc)).run Sink.fresh).1 = some (0, st1)
        ∧ st1.port.pstate = .WAIT_A ∧ st1.port.cmdlen = 0
        ∧ (sizeof_cmdbuf < (List.replicate 512 66).length + 1 →
            st1.trace = (Session.after_at modem_alloc).trace
              ∧ st1.priv = (Session.after_at modem_alloc).priv
              ∧ st1.port.echo = (Session.after_at modem_alloc).port.echo
              ∧ st1.port.echo_junk = (Session.after_at modem_alloc).port.echo_junk
              ∧ st1.port.s3 = (Session.after_at modem_alloc).port.s3
              ∧ ((atport_parse modem_atcommands
                    (List.replicate 512 66 ++ [(Session.after_at modem_alloc).port.s3])
                    (Session.after_at modem_alloc)).run Sink.fresh).2.replies
                  = Sink.fresh.replies ++ [[], [13, 10], bytes "ERROR\r\n"])
        ∧ ((List.replicate 512 66).length + 1 ≤ sizeof_cmdbuf →
            ∃ res, st1.trace = (Session.after_at modem_alloc).trace
                ++ [(cstr (List.replicate 512 66), res)]
              ∧ (0 ∉ List.replicate 512 66 → cstr (List.replicate 512 66)
                  = List.replicate 512 66)) :=
  ⟨rfl, rfl, List.length_replicate _ _,
   (fun hm => absurd (List.eq_of_mem_replicate hm) (by decide)),
   (fun _ hr => by cases hr),
   overflow_policy modem_atcommands (Session.after_at modem_alloc) (List.replicate 512 66)
     Sink.fresh rfl rfl (List.length_replicate _ _)
     (fun hm => absurd (List.eq_of_mem_replicate hm) (by decide))
     (fun _ hr => by cases hr)⟩

/-! ## Command resolution (C4, C5, C6) -/

theorem strcspn_eq_name_length (line : List Nat) :
    strcspn line [61, 63] = (line_name line).length := by
  have hp : (fun c : Nat => !([61, 63] : List Nat).contains c)
      = (fun c : Nat => decide (c ≠ 61 ∧ c ≠ 63)) := by
    funext c
    by_cases h1 : c = 61
    · simp [h1]
    · by_cases h2 : c = 63
      · simp [h2]
      · simp [h1, h2]
  unfold strcspn line_name
  rw [hp]

theorem take_takeWhile_length (p : Nat → Bool) :
    ∀ l : List Nat, l.take (l.takeWhile p).length = l.takeWhile p := by
  intro l
  induction l with
  | nil => rfl
  | cons c cs ih =>
    cases h : p c
    · simp [List.takeWhile_cons, h]
    · simp [List.takeWhile_cons, h, ih]

theorem take_name_length (line : List Nat) :
    line.take (line_name line).length = line_name line :=
  take_takeWhile_length _ line

theorem atcmd_lookup_eq_find {π : Type} (line : List Nat) (cmds : List (atcmd π)) :
    atcmd_lookup line (line_name line).length cmds
      = cmds.find? (fun c => decide (c.name.length = (line_name line).length)
          && (c.name.map tolower == (line_name line).map tolower)) := by
  induction cmds with
  | nil => rfl
  | cons c cs ih =>
    rw [atcmd_lookup, List.find?_cons, ih]
    by_cases hl : c.name.length = (line_name line).length
    · have : strncasecmp_eq c.name line c.name.length
          = (c.name.map tolower == (line_name line).map tolower) := by
        unfold strncasecmp_eq
        rw [hl, take_name_length, ← hl, List.take_length]
      rw [this]
      cases h : (c.name.map tolower == (line_name line).map tolower) <;> simp [hl]
    · simp [hl]

/-- C4: command resolution equals its reference definition.  For every command
table and every line whose text after the name is empty, `?`, or starts with `=`
(the forms plain, read, test and write), `atport_cmd_lookup_and_exec` is the program
`spec_resolve`. -/
theorem resolution_equals_reference {π : Type} (cmds : List (atcmd π)) (line : List Nat)
    (priv : π)
    (h : line_rest line = [] ∨ line_rest line = [63] ∨ (line_rest line).head? = some 61) :
    atport_cmd_lookup_and_exec line cmds priv = spec_resolve cmds line priv := by
  unfold atport_cmd_lookup_and_exec spec_resolve
  simp only [strcspn_eq_name_length, atcmd_lookup_eq_find]
  cases cmds.find? (fun c => decide (c.name.length = (line_name line).length)
      && (c.name.map tolower == (line_name line).map tolower)) with
  | none => rfl
  | some c =>
    simp only
    rw [show List.drop (line_name line).length line = line_rest line from rfl]
    generalize line_rest line = r at h
    rcases r with _ | ⟨a, rest⟩
    · simp [unsupported]
    · rcases h with h | h | h
      · simp at h
      · simp only [List.cons.injEq] at h
        obtain ⟨rfl, rfl⟩ := h
        simp [unsupported]
      · simp only [List.head?_cons, Option.some.injEq] at h
        subst h
        rcases rest with _ | ⟨b, rest2⟩
        · simp [unsupported]
        · by_cases hb : b = 63 ∧ rest2 = []
          · obtain ⟨rfl, rfl⟩ := hb
            simp [unsupported]
          · have hne : ¬ (61 :: b :: rest2 = [61, 63]) := by
              intro hh; simp at hh; exact hb hh
            simp only [hne, if_false, unsupported]
            have hr : ∀ (X1 X2 X3 X5 : Prog (Int × π)) (X4 : List Nat → Prog (Int × π)),
                (match 61 :: b :: rest2 with
                  | [] => X1
                  | [63] => X2
                  | [61, 63] => X3
                  | 61 :: param => X4 param
                  | _ => X5) = X4 (b :: rest2) := by
              intro X1 X2 X3 X5 X4
              split
              · rename_i hh; simp at hh
              · rename_i hh; simp at hh
              · rename_i hh; exact absurd hh hne
              · rename_i hh; simp only [List.cons.injEq, true_and] at hh; rw [hh]
              · rename_i hh; exact absurd rfl (hh (b :: rest2))
            exact (hr _ _ _ _ (fun param => match c.write with
              | some h => h param priv
              | none => Prog.ret (-ENOENT, priv))).symm

theorem resolution_equals_reference_witness :
    (line_rest (bytes "+cops=3,2") = [] ∨ line_rest (bytes "+cops=3,2") = [63]
        ∨ (line_rest (bytes "+cops=3,2")).head? = some 61)
      ∧ atport_cmd_lookup_and_exec (bytes "+cops=3,2") modem_atcommands modem_alloc
          = spec_resolve modem_atcommands (bytes "+cops=3,2") modem_alloc :=
  ⟨by decide, resolution_equals_reference modem_atcommands (bytes "+cops=3,2") modem_alloc
    (by decide)⟩

/-- C5: the write handler is also called for a text after the name that starts with
`?`.  For every modem state the line `+COPS?3,2` is resolved to
`mdm_cmd_cops_write` with parameter `3,2`, and `AT+COPS?3,2\r` is answered `OK`. -/
theorem write_handler_called_for_question_text :
    (∀ m : modem_state,
        atport_cmd_lookup_and_exec (bytes "+COPS?3,2") modem_atcommands m
          = mdm_cmd_cops_write (bytes "3,2") m)
      ∧ line_rest (bytes "+COPS?3,2") = bytes "?3,2"
      ∧ ((atport_parse modem_atcommands (bytes "AT+COPS?3,2\r")
            (Session.init modem_alloc)).run Sink.fresh).2.replies
          = [[], bytes "\r\n", bytes "\r\nOK\r\n"]
      ∧ ((atport_parse modem_atcommands (bytes "AT+COPS?3,2\r")
            (Session.init modem_alloc)).run Sink.fresh).1.map (fun r => r.2.trace)
          = some [(bytes "+COPS?3,2", 0)] :=
  ⟨fun _ => rfl, by decide, by decide, by decide⟩

/-- C6: two-level fallback.  For a command that fits the buffer and after a line
break that was not refused, `atport_cmd_exec` runs the device resolution first.  A
result other than `-ENOENT` is reported as it is: the port is left as it was and the
only write after the device handler is the status reply.  Only on `-ENOENT` the
generic table is run on the same line, and its result is reported.  `AT+COPS=3,2`
is answered `OK` and `AT+COPS=1,0` is answered `ERROR`. -/
theorem two_level_fallback {μ : Type} (cmds : List (atcmd μ)) (st : Session μ) (t : Sink)
    (hlen : st.port.cmdlen ≤ sizeof_cmdbuf) (hputs : 0 ≤ ((atport_puts []).run t).1) :
    ((device_outcome cmds st t).1.1 ≠ -ENOENT →
        (atport_cmd_exec cmds st).run t
          = ((((atport_cmd_report_status (device_outcome cmds st t).1.1).run
                  (device_outcome cmds st t).2).1,
              { port := st.port, priv := (device_outcome cmds st t).1.2,
                trace := st.trace
                  ++ [(cstr st.port.cmdbuf, (device_outcome cmds st t).1.1)] }),
             ((atport_cmd_report_status (device_outcome cmds st t).1.1).run
                  (device_outcome cmds st t).2).2))
      ∧ ((device_outcome cmds st t).1.1 = -ENOENT →
        (atport_cmd_exec cmds st).run t
          = ((((atport_cmd_report_status (generic_outcome cmds st t).1.1).run
                  (generic_outcome cmds st t).2).1,
              { port := (generic_outcome cmds st t).1.2,
                priv := (device_outcome cmds st t).1.2,
                trace := st.trace
                  ++ [(cstr st.port.cmdbuf, (generic_outcome cmds st t).1.1)] }),
             ((atport_cmd_report_status (generic_outcome cmds st t).1.1).run
                  (generic_outcome cmds st t).2).2))
      ∧ ((atport_parse modem_atcommands (bytes "AT+COPS=3,2\r")
            (Session.init modem_alloc)).run Sink.fresh).2.replies
          = [[], bytes "\r\n", bytes "\r\nOK\r\n"]
      ∧ ((atport_parse modem_atcommands (bytes "AT+COPS=1,0\r")
            (Session.init modem_alloc)).run Sink.fresh).2.replies
          = [[], bytes "\r\n", bytes "ERROR\r\n"]
      ∧ ((atport_parse modem_atcommands (bytes "AT+COPS=1,0\r")
            (Session.init modem_alloc)).run Sink.fresh).1.map (fun r => r.2.trace)
          = some [(bytes "+COPS=1,0", -EINVAL)] := by
  have hlen2 : ¬ st.port.cmdlen > sizeof_cmdbuf := Nat.not_lt.mpr hlen
  have hputs2 : ¬ ((atport_puts []).run t).1 < 0 := not_lt.mpr hputs
  refine ⟨?_, ?_, by decide, by decide, by decide⟩
  · intro hne
    unfold device_outcome at hne
    unfold atport_cmd_exec
    rw [Prog.run_bind, if_neg hputs2, if_neg hlen2, Prog.run_bind, Prog.run_bind, if_neg hne,
      Prog.run_bind]
    rfl
  · intro heq
    unfold device_outcome at heq
    unfold atport_cmd_exec
    rw [Prog.run_bind, if_neg hputs2, if_neg hlen2, Prog.run_bind, Prog.run_bind, if_pos heq,
      Prog.run_bind]
    rfl

theorem two_level_fallback_witness :
    (Session.cops_bad modem_alloc).port.cmdlen ≤ sizeof_cmdbuf
      ∧ 0 ≤ ((atport_puts []).run Sink.fresh).1
      ∧ ((device_outcome modem_atcommands (Session.cops_bad modem_alloc) Sink.fresh).1.1
            ≠ -ENOENT →
          (atport_cmd_exec modem_atcommands (Session.cops_bad modem_alloc)).run Sink.fresh
            = ((((atport_cmd_report_status (device_outcome modem_atcommands
                      (Session.cops_bad modem_alloc) Sink.fresh).1.1).run
                    (device_outcome modem_atcommands (Session.cops_bad modem_alloc)
                      Sink.fresh).2).1,
                { port := (Session.cops_bad modem_alloc).port,
                  priv := (device_outcome modem_atcommands (Session.cops_bad modem_alloc)
                    Sink.fresh).1.2,
                  trace := (Session.cops_bad modem_alloc).trace
                    ++ [(cstr (Session.cops_bad modem_alloc).port.cmdbuf,
                         (device_outcome modem_atcommands (Session.cops_bad modem_alloc)
                           Sink.fresh).1.1)] }),
               ((atport_cmd_report_status (device_outcome modem_atcommands
                      (Session.cops_bad modem_alloc) Sink.fresh).1.1).run
                    (device_outcome modem_atcommands (Session.cops_bad modem_alloc)
                      Sink.fresh).2).2))
      ∧ (device_outcome modem_atcommands (Session.cops_bad modem_alloc) Sink.fresh).1.1
          = -EINVAL :=
  ⟨by decide, by decide,
   (two_level_fallback modem_atcommands (Session.cops_bad modem_alloc) Sink.fresh
      (by decide) (by decide)).1,
   by decide⟩

/-! ## Transport failure and the bare command (C7, C8) -/

/-- C7: a write refused inside a handler does not end the parse call.  With the
fourth write (the `huawei` line of `+CGMI`) answered `-5`, `atport_parse` on
`AT+CGMI\rAT\r` still writes `ERROR`, goes on with the following command and
returns 0. -/
theorem handler_write_failure_not_fatal :
    ((atport_parse modem_atcommands (bytes "AT+CGMI\rAT\r") (Session.init modem_alloc)).run
        { log := [], script := [0, 0, 0, -5] }).1.map Prod.fst = some 0
      ∧ ((atport_parse modem_atcommands (bytes "AT+CGMI\rAT\r")
            (Session.init modem_alloc)).run { log := [], script := [0, 0, 0, -5] }).2.log
          = [(Origin.echo, bytes "AT+CGMI"), (Origin.reply, []), (Origin.reply, bytes "\r\n"),
             (Origin.reply, bytes "huawei"), (Origin.reply, bytes "ERROR\r\n"),
             (Origin.echo, bytes "AT"), (Origin.reply, []), (Origin.reply, bytes "\r\n"),
             (Origin.reply, bytes "\r\nOK\r\n")] := by
  decide

/-- C8, as stated: for no part of the input taken as the echo are the bytes written
for `AT\r` that echo followed by `\r\nOK\r\n` alone. -/
theorem bare_at_reply_is_not_only_ok :
    ¬ ∃ k, ((atport_parse modem_atcommands (bytes "AT\r") (Session.init modem_alloc)).run
        Sink.fresh).2.bytes = (bytes "AT\r").take k ++ bytes "\r\nOK\r\n" := by
  rintro ⟨k, hk⟩
  have h10 : ((atport_parse modem_atcommands (bytes "AT\r") (Session.init modem_alloc)).run
      Sink.fresh).2.bytes.length = 10 := by decide
  have hlen := congrArg List.length hk
  rw [h10, List.length_append, List.length_take] at hlen
  have h6 : (bytes "\r\nOK\r\n").length = 6 := by decide
  have h3 : (bytes "AT\r").length = 3 := by decide
  omega

/-- C8, amended: for a new session on any modem state, `AT\r` is refused by the
device table (`-ENOENT`), matches the empty-name entry of the generic table, and
succeeds; the writes are the echo `AT`, the line break of `atport_cmd_exec` (an empty
write and `\r\n`) and the status reply `\r\nOK\r\n`. -/
theorem bare_at_reply (m : modem_state) :
    ((atport_custom_cmd modem_atcommands m []).run Sink.fresh).1.1 = -ENOENT
      ∧ (atcmd_lookup [] 0 atport_gen_cmds).map (fun c => c.name) = some []
      ∧ ((atport_parse modem_atcommands (bytes "AT\r") (Session.init m)).run Sink.fresh).1
          = some (0, { Session.init m with trace := [([], 0)] })
      ∧ ((atport_parse modem_atcommands (bytes "AT\r") (Session.init m)).run Sink.fresh).2.log
          = [(Origin.echo, bytes "AT"), (Origin.reply, []), (Origin.reply, bytes "\r\n"),
             (Origin.reply, bytes "\r\nOK\r\n")]
      ∧ ((atport_parse modem_atcommands (bytes "AT\r") (Session.init m)).run Sink.fresh).2.bytes
          = bytes "AT" ++ bytes "\r\n" ++ bytes "\r\nOK\r\n" := by
  have hlog : ((atport_parse modem_atcommands (bytes "AT\r") (Session.init m)).run
      Sink.fresh).2.log
        = [(Origin.echo, bytes "AT"), (Origin.reply, []), (Origin.reply, bytes "\r\n"),
           (Origin.reply, bytes "\r\nOK\r\n")] := rfl
  refine ⟨rfl, rfl, rfl, hlog, ?_⟩
  rw [Sink.bytes, hlog]
  decide

/-! ## Signal quality (C9) -/

theorem fmt_u_length_le (n : Nat) (h : n < 100) : (fmt_u n).length ≤ 2 := by
  revert n
  decide

theorem csq_signal_eq_spec (rssi : Int) : (csq_signal rssi : Int) = spec_signal rssi := by
  unfold csq_signal spec_signal
  split
  · rfl
  · split
    · rfl
    · split
      · rfl
      · rename_i h1 h2 h3
        have ha : (0 : Int) ≤ rssi + 113 := by omega
        rw [Int.tdiv_eq_ediv ha (by decide)]
        have hb : (rssi + 113) / 2 % 2 ^ 32 = (rssi + 113) / 2 := by omega
        rw [hb]
        exact Int.toNat_of_nonneg (by omega)

theorem csq_signal_lt (rssi : Int) : csq_signal rssi < 100 := by
  have h := csq_signal_eq_spec rssi
  have h2 : spec_signal rssi < 100 := by
    unfold spec_signal
    split
    · decide
    · split
      · decide
      · split
        · decide
        · omega
  omega

/-- C9: signal-quality mapping.  For every modem state the value computed by
`mdm_cmd_csq_exec` is 99 for rssi 0, else 28 from -57 up, else 3 down from -107, else
`(rssi + 113) / 2`, and on a transport that accepts the writes the handler returns
0, leaves the state as it is and writes the line `+CSQ: <s>,99` and CR LF.  The
values for rssi -60, 0, -57 and -110 are 26, 99, 28 and 3. -/
theorem signal_quality_mapping (m : modem_state) :
    (csq_signal m.rssi : Int) = spec_signal m.rssi
      ∧ (mdm_cmd_csq_exec m).run Sink.fresh
          = ((0, m), { log := [(Origin.reply, bytes "+CSQ: " ++ fmt_u (spec_signal m.rssi).toNat
                                  ++ bytes ",99"),
                               (Origin.reply, bytes "\r\n")],
                       script := [] })
      ∧ spec_signal (-60) = 26 ∧ spec_signal 0 = 99 ∧ spec_signal (-57) = 28
      ∧ spec_signal (-110) = 3
      ∧ ((mdm_cmd_csq_exec { modem_alloc with rssi := -60 }).run Sink.fresh).2.bytes
          = bytes "+CSQ: 26,99\r\n"
      ∧ ((mdm_cmd_csq_exec { modem_alloc with rssi := 0 }).run Sink.fresh).2.bytes
          = bytes "+CSQ: 99,99\r\n"
      ∧ ((mdm_cmd_csq_exec { modem_alloc with rssi := -57 }).run Sink.fresh).2.bytes
          = bytes "+CSQ: 28,99\r\n"
      ∧ ((mdm_cmd_csq_exec { modem_alloc with rssi := -110 }).run Sink.fresh).2.bytes
          = bytes "+CSQ: 3,99\r\n" := by
  refine ⟨csq_signal_eq_spec m.rssi, ?_, by decide, by decide, by decide, by decide,
    by decide, by decide, by decide, by decide⟩
  have hs : (spec_signal m.rssi).toNat = csq_signal m.rssi := by
    rw [← csq_signal_eq_spec]; simp
  have hl := fmt_u_length_le _ (csq_signal_lt m.rssi)
  have hlen : (bytes "+CSQ: " ++ fmt_u (csq_signal m.rssi) ++ bytes ",99").length < 0x100 := by
    have h6 : (bytes "+CSQ: ").length = 6 := by decide
    have h3 : (bytes ",99").length = 3 := by decide
    simp only [List.length_append, h6, h3]
    omega
  rw [hs]
  unfold mdm_cmd_csq_exec atport_printf
  rw [if_pos hlen]
  rfl

/-! ## Message deletion (C10) -/

theorem slot_after_delete_self (m : modem_state) (k : Nat) (x : msg) (hx : x.pdu = none) :
    (modem_state.slot { m with msgs := m.msgs.set k x } k).pdu = none := by
  simp only [modem_state.slot, List.getD_eq_getElem?_getD, List.getElem?_set, if_true]
  split
  · simpa using hx
  · rfl

theorem slot_after_delete_other (m : modem_state) (k j : Nat) (x : msg) (h : j ≠ k) :
    modem_state.slot { m with msgs := m.msgs.set k x } j = m.slot j := by
  simp only [modem_state.slot, List.getD_eq_getElem?_getD]
  rw [List.getElem?_set_ne (Ne.symm h)]

theorem cmgl_lines_after_delete_self (m : modem_state) (k : Nat) (x : msg) (hx : x.pdu = none) :
    cmgl_lines { m with msgs := m.msgs.set k x } k = [] := by
  unfold cmgl_lines
  rw [slot_after_delete_self m k x hx]

theorem cmgl_lines_after_delete_other (m : modem_state) (k j : Nat) (x : msg) (h : j ≠ k) :
    cmgl_lines { m with msgs := m.msgs.set k x } j = cmgl_lines m j := by
  unfold cmgl_lines
  rw [slot_after_delete_other m k j x h]

/-- With writes that succeed the listing loop returns 0 and writes the lines of the
slots `i, i + 1, ..., i + n - 1` in this order. -/
theorem mdm_cmd_cmgl_loop_eval0 (m : modem_state) :
    ∀ n i : Nat, (mdm_cmd_cmgl_loop m n i).eval0
      = (0, (List.range' i n).flatMap (cmgl_lines m)) := by
  intro n
  induction n with
  | zero => intro i; rfl
  | succ n ih =>
    intro i
    rw [mdm_cmd_cmgl_loop, List.range'_succ, List.flatMap_cons]
    cases hp : (m.slot i).pdu with
    | none =>
      simp only [ih, cmgl_lines, hp, List.nil_append]
    | some pdu =>
      have hdiv : (pdu.length : Int).tdiv 2 = (pdu.length : Int) / 2 :=
        Int.tdiv_eq_ediv (Int.natCast_nonneg _) (by decide)
      simp only [Prog.eval0_bind, atport_printf_eval0, atport_puts_eval0, ne_eq,
        not_true_eq_false, if_false, ih, cmgl_lines, hp, hdiv, cmgl_header]
      simp

theorem mdm_cmd_cmgl_write_eval0 (m : modem_state) :
    (mdm_cmd_cmgl_write (bytes "4") m).eval0
      = ((0, m), (List.range MSGS_SIZE).flatMap (cmgl_lines m)) := by
  unfold mdm_cmd_cmgl_write
  rw [if_neg (by simp), Prog.eval0_bind, mdm_cmd_cmgl_loop_eval0, List.range_eq_range']
  simp [Prog.eval0]

theorem flatMap_without {β : Type} (f g : Nat → List β) (k : Nat) (hk : g k = [])
    (ho : ∀ j, j ≠ k → g j = f j) :
    ∀ l : List Nat, l.flatMap g = (l.filter (fun j => j ≠ k)).flatMap f := by
  intro l
  induction l with
  | nil => rfl
  | cons a as ih =>
    by_cases ha : a = k
    · subst ha
      simp [List.flatMap_cons, hk, ih]
    · simp [List.flatMap_cons, List.filter_cons, ha, ho a ha, ih]

/-- Inside `int` the value that `sscanf` stores is the number that the text spells. -/
theorem int_of_long_strtol_range (v : Int) (h1 : -2147483648 ≤ v) (h2 : v ≤ 2147483647) :
    int_of_long (strtol_range v) = v := by
  unfold int_of_long strtol_range
  rw [if_neg (by omega), if_neg (by omega)]
  omega

/-- The index read from a parameter is the stored form of the number it spells. -/
theorem decimal_index_eq (str : List Nat) :
    decimal_index str
      = (decimal_number str).map (fun v => int_of_long (strtol_range v)) := by
  unfold decimal_index decimal_number sscanf_d_n
  cases scan_decimal str with
  | none => rfl
  | some p =>
    obtain ⟨v, n⟩ := p
    simp only
    by_cases hn : n = str.length
    · simp [hn]
    · simp [hn]

/-- C10: message deletion.  `mdm_cmd_cmgd_write` never writes.  With the index that it
reads from the parameter it returns `-EINVAL` and keeps the state when there is no
index, when the index is outside 0..9 or when the slot is empty.  Otherwise it returns
0, the addressed slot becomes empty, every other slot and every other field stay as
they were, and a following `+CMGL=4` writes the former listing without the lines of
that slot.  There is no index exactly when the parameter spells no decimal number, and
the index is the number spelled whenever that number is a value of `int`; the
one-digit strings are the indexes 0..9.  `AT+CMGD=0` is answered `ERROR` on the empty
store and `OK` when slot 0 holds a message, which `AT+CMGL=4` then no longer lists.
A number outside `int` is not refused: it is cut to `long` and its low 32 bits are the
index.  The parameter `4294967296` spells a number outside 0..9 and is read as index
0, so `AT+CMGD=4294967296` is answered `OK` and empties the occupied slot 0, and
`4294967297` empties slot 1 in the same way. -/
theorem message_deletion (m : modem_state) (str : List Nat) (t : Sink) :
    (decimal_index str = none → (mdm_cmd_cmgd_write str m).run t = ((-EINVAL, m), t))
      ∧ (∀ idx, decimal_index str = some idx →
          (idx < 0 ∨ 9 < idx ∨ (m.slot idx.toNat).pdu = none) →
          (mdm_cmd_cmgd_write str m).run t = ((-EINVAL, m), t))
      ∧ (∀ idx, decimal_index str = some idx → 0 ≤ idx → idx ≤ 9 →
          (m.slot idx.toNat).pdu ≠ none →
          ∃ m1, (mdm_cmd_cmgd_write str m).run t = ((0, m1), t)
            ∧ (m1.slot idx.toNat).pdu = none
            ∧ (∀ j, j ≠ idx.toNat → m1.slot j = m.slot j)
            ∧ m1.msgs.length = m.msgs.length
            ∧ m1 = { m with msgs := m1.msgs }
            ∧ (mdm_cmd_cmgl_write (bytes "4") m1).eval0
                = ((0, m1), ((List.range MSGS_SIZE).filter (fun j => j ≠ idx.toNat)).flatMap
                    (cmgl_lines m)))
      ∧ (decimal_index str = none ↔ decimal_number str = none)
      ∧ (∀ v, decimal_number str = some v →
          decimal_index str = some (int_of_long (strtol_range v)))
      ∧ (∀ v, decimal_number str = some v → -2147483648 ≤ v → v ≤ 2147483647 →
          decimal_index str = some v)
      ∧ (∀ d : Nat, d < 10 → decimal_index [48 + d] = some (d : Int))
      ∧ ((atport_parse modem_atcommands (bytes "AT+CMGD=0\r")
            (Session.init modem_alloc)).run Sink.fresh).2.replies
          = [[], bytes "\r\n", bytes "ERROR\r\n"]
      ∧ ((atport_parse modem_atcommands (bytes "AT+CMGL=4\r")
            (Session.init (modem_add_sms_recv modem_alloc (bytes "0011")))).run
              Sink.fresh).2.replies
          = [[], bytes "\r\n", bytes "+CMGL: 0,0,,2", bytes "\r\n", bytes "0011",
             bytes "\r\n", bytes "\r\nOK\r\n"]
      ∧ ((atport_parse modem_atcommands (bytes "AT+CMGD=0\rAT+CMGL=4\r")
            (Session.init (modem_add_sms_recv modem_alloc (bytes "0011")))).run
              Sink.fresh).2.replies
          = [[], bytes "\r\n", bytes "\r\nOK\r\n", [], bytes "\r\n", bytes "\r\nOK\r\n"]
      ∧ decimal_number (bytes "4294967296") = some 4294967296
      ∧ decimal_index (bytes "4294967296") = some 0
      ∧ (mdm_cmd_cmgd_write (bytes "4294967296")
            (modem_add_sms_recv modem_alloc (bytes "0011"))).run t = ((0, modem_alloc), t)
      ∧ ((atport_parse modem_atcommands (bytes "AT+CMGD=4294967296\rAT+CMGL=4\r")
            (Session.init (modem_add_sms_recv modem_alloc (bytes "0011")))).run
              Sink.fresh).2.replies
          = [[], bytes "\r\n", bytes "\r\nOK\r\n", [], bytes "\r\n", bytes "\r\nOK\r\n"]
      ∧ decimal_index (bytes "4294967297") = some 1
      ∧ ((atport_parse modem_atcommands (bytes "AT+CMGD=4294967297\rAT+CMGL=4\r")
            (Session.init (modem_add_sms_recv
              (modem_add_sms_recv modem_alloc (bytes "0011")) (bytes "0022")))).run
              Sink.fresh).2.replies
          = [[], bytes "\r\n", bytes "\r\nOK\r\n", [], bytes "\r\n",
             bytes "+CMGL: 0,0,,2", bytes "\r\n", bytes "0011", bytes "\r\n",
             bytes "\r\nOK\r\n"] := by
  refine ⟨?_, ?_, ?_, ?_, ?_, ?_, by decide, by decide, by decide, by decide, by decide,
    by decide, rfl, by decide, by decide, by decide⟩
  rotate_left 3
  · rw [decimal_index_eq]
    cases decimal_number str <;> simp
  · intro v hv
    rw [decimal_index_eq, hv]
    rfl
  · intro v hv h1 h2
    rw [decimal_index_eq, hv]
    simp only [Option.map_some', int_of_long_strtol_range v h1 h2]
  · intro h
    unfold decimal_index at h
    unfold mdm_cmd_cmgd_write
    cases hs : sscanf_d_n str with
    | none => rfl
    | some p =>
      obtain ⟨v, n⟩ := p
      rw [hs] at h
      simp only at h
      by_cases hn : n = str.length
      · simp [hn] at h
      · simp only [ne_eq, hn, not_false_eq_true, if_true]; rfl
  · intro idx h hbad
    unfold decimal_index at h
    unfold mdm_cmd_cmgd_write
    cases hs : sscanf_d_n str with
    | none => rfl
    | some p =>
      obtain ⟨v, n⟩ := p
      rw [hs] at h
      simp only at h
      by_cases hn : n = str.length
      · simp only [hn, if_true, Option.some.injEq] at h
        subst h
        have hbad2 : v < 0 ∨ v ≥ (MSGS_SIZE : Int) ∨ (m.slot v.toNat).pdu = none := by
          rcases hbad with h1 | h1 | h1
          · exact Or.inl h1
          · exact Or.inr (Or.inl (by simp only [MSGS_SIZE]; omega))
          · exact Or.inr (Or.inr h1)
        simp only [ne_eq, hn, not_true_eq_false, if_false, if_pos hbad2]; rfl
      · simp [hn] at h
  · intro idx h h0 h9 hocc
    unfold decimal_index at h
    unfold mdm_cmd_cmgd_write
    cases hs : sscanf_d_n str with
    | none => rw [hs] at h; simp at h
    | some p =>
      obtain ⟨v, n⟩ := p
      rw [hs] at h
      simp only at h
      by_cases hn : n = str.length
      · simp only [hn, if_true, Option.some.injEq] at h
        subst h
        have hok : ¬ (v < 0 ∨ v ≥ (MSGS_SIZE : Int) ∨ (m.slot v.toNat).pdu = none) := by
          simp only [MSGS_SIZE]
          rintro (h1 | h1 | h1)
          · omega
          · omega
          · exact hocc h1
        simp only [ne_eq, hn, not_true_eq_false, if_false, if_neg hok]
        refine ⟨_, rfl, slot_after_delete_self m _ _ rfl,
          fun j hj => slot_after_delete_other m _ j _ hj, by simp, rfl, ?_⟩
        rw [mdm_cmd_cmgl_write_eval0]
        congr 1
        exact flatMap_without (cmgl_lines m) _ v.toNat
          (cmgl_lines_after_delete_self m _ _ rfl)
          (fun j hj => cmgl_lines_after_delete_other m _ j _ hj) _
      · simp [hn] at h

/-! ## First-fit insertion (C11) -/

/-- The search of `modem_add_sms_recv` stops at the first empty slot of its range. -/
theorem first_free_spec (m : modem_state) :
    ∀ n i : Nat, i ≤ first_free m n i ∧ first_free m n i ≤ i + n
      ∧ (∀ j, i ≤ j → j < first_free m n i → (m.slot j).pdu ≠ none)
      ∧ (first_free m n i < i + n → (m.slot (first_free m n i)).pdu = none) := by
  intro n
  induction n with
  | zero => intro i; simp [first_free]; intro j h1 h2; omega
  | succ n ih =>
    intro i
    rw [first_free]
    by_cases h : (m.slot i).pdu = none
    · rw [if_pos h]
      exact ⟨le_refl _, by omega, fun j h1 h2 => by omega, fun _ => h⟩
    · rw [if_neg h]
      obtain ⟨h1, h2, h3, h4⟩ := ih (i + 1)
      refine ⟨by omega, by omega, ?_, fun hlt => h4 (by omega)⟩
      intro j hj1 hj2
      by_cases hji : j = i
      · subst hji; exact h
      · exact h3 j (by omega) hj2

theorem slot_set_self (m : modem_state) (k : Nat) (x : msg) (hk : k < m.msgs.length) :
    modem_state.slot { m with msgs := m.msgs.set k x } k = x := by
  simp [modem_state.slot, List.getD_eq_getElem?_getD, List.getElem?_set, hk]

theorem modem_add_sms_recv_slot_occupied (m : modem_state) (pdu : List Nat) (k : Nat)
    (hk : (m.slot k).pdu ≠ none) : (modem_add_sms_recv m pdu).slot k = m.slot k := by
  unfold modem_add_sms_recv
  simp only
  split
  · rfl
  · rename_i hne
    obtain ⟨_, h2, _, h4⟩ := first_free_spec m MSGS_SIZE 0
    have hlt : first_free m MSGS_SIZE 0 < 0 + MSGS_SIZE := by omega
    apply slot_after_delete_other
    intro hkk
    rw [hkk] at hk
    exact hk (h4 hlt)

theorem mdm_cmd_cmgd_write_slot_other (m : modem_state) (str : List Nat) (k : Nat)
    (hk : decimal_index str ≠ some (k : Int)) :
    ((mdm_cmd_cmgd_write str m).eval0.1.2).slot k = m.slot k := by
  unfold decimal_index at hk
  unfold mdm_cmd_cmgd_write
  cases hs : sscanf_d_n str with
  | none => rfl
  | some p =>
    obtain ⟨v, n⟩ := p
    rw [hs] at hk
    simp only at hk ⊢
    by_cases hn : n = str.length
    · simp only [hn, if_true, ne_eq, Option.some.injEq] at hk
      simp only [ne_eq, hn, not_true_eq_false, if_false]
      split
      · rfl
      · rename_i hok
        simp only [not_or, not_lt] at hok
        simp only [Prog.eval0]
        apply slot_after_delete_other
        intro hkk
        apply hk
        omega
    · simp only [ne_eq, hn, not_false_eq_true, if_true]; rfl

theorem store_ops_slot (ops : List StoreOp) (k : Nat) :
    ∀ m : modem_state, (m.slot k).pdu ≠ none →
      (∀ str, StoreOp.delete str ∈ ops → decimal_index str ≠ some (k : Int)) →
      (store_ops ops m).slot k = m.slot k := by
  induction ops with
  | nil => intro m _ _; rfl
  | cons op ops ih =>
    intro m hk hd
    have h1 : (store_op m op).slot k = m.slot k := by
      cases op with
      | insert pdu => exact modem_add_sms_recv_slot_occupied m pdu k hk
      | delete str => exact mdm_cmd_cmgd_write_slot_other m str k (hd str (by simp))
    rw [store_ops, ih (store_op m op) (by rw [h1]; exact hk)
      (fun str hs => hd str (List.mem_cons_of_mem _ hs)), h1]

/-- C11: first-fit insertion with stable indices.  On a store of 10 slots
`modem_add_sms_recv` puts the PDU with state 0 in the empty slot of lowest index and
leaves every other slot and field as it was; with no empty slot the state is
unchanged.  An occupied slot keeps its content through every sequence of insertions
and of `+CMGD` writes whose parameter is not read as its index; the index is the one
that the handler reads, so a parameter `4294967296` counts as naming slot 0. -/
theorem first_fit_insertion (m : modem_state) (pdu : List Nat)
    (hlen : m.msgs.length = MSGS_SIZE) :
    (∀ k, k < MSGS_SIZE → (m.slot k).pdu = none → (∀ j, j < k → (m.slot j).pdu ≠ none) →
        (modem_add_sms_recv m pdu).slot k = { state := 0, pdu := some pdu }
          ∧ (∀ j, j ≠ k → (modem_add_sms_recv m pdu).slot j = m.slot j)
          ∧ (modem_add_sms_recv m pdu).msgs.length = MSGS_SIZE
          ∧ modem_add_sms_recv m pdu = { m with msgs := (modem_add_sms_recv m pdu).msgs })
      ∧ ((∀ j, j < MSGS_SIZE → (m.slot j).pdu ≠ none) → modem_add_sms_recv m pdu = m)
      ∧ (∀ (ops : List StoreOp) (k : Nat), (m.slot k).pdu ≠ none →
          (∀ str, StoreOp.delete str ∈ ops → decimal_index str ≠ some (k : Int)) →
          (store_ops ops m).slot k = m.slot k) := by
  obtain ⟨_, h2, h3, h4⟩ := first_free_spec m MSGS_SIZE 0
  refine ⟨?_, ?_, fun ops k => store_ops_slot ops k m⟩
  · intro k hk hempty hfirst
    have hff : first_free m MSGS_SIZE 0 = k := by
      rcases Nat.lt_trichotomy (first_free m MSGS_SIZE 0) k with h | h | h
      · exact absurd (h4 (by omega)) (hfirst _ h)
      · exact h
      · exact absurd hempty (h3 k (Nat.zero_le _) h)
    have hne : ¬ k = MSGS_SIZE := by omega
    unfold modem_add_sms_recv
    simp only [hff, if_neg hne]
    refine ⟨slot_set_self m k _ (by omega), fun j hj => slot_after_delete_other m k j _ hj,
      by simp [hlen], by first | rfl | trivial⟩
  · intro hfull
    have hff : first_free m MSGS_SIZE 0 = MSGS_SIZE := by
      by_contra hne
      have hlt : first_free m MSGS_SIZE 0 < 0 + MSGS_SIZE := by omega
      exact hfull _ (by omega) (h4 hlt)
    unfold modem_add_sms_recv
    simp only [hff, if_true]

theorem first_fit_insertion_witness :
    (modem_add_sms_recv modem_alloc (bytes "00")).msgs.length = MSGS_SIZE
      ∧ (modem_add_sms_recv (modem_add_sms_recv modem_alloc (bytes "00")) (bytes "11")).slot 1
          = { state := 0, pdu := some (bytes "11") }
      ∧ (store_ops [StoreOp.insert (bytes "22"), StoreOp.delete (bytes "1"),
            StoreOp.insert (bytes "33"), StoreOp.delete (bytes "4294967297")]
          (modem_add_sms_recv modem_alloc (bytes "00"))).slot 0
          = (modem_add_sms_recv modem_alloc (bytes "00")).slot 0 :=
  ⟨by decide,
   ((first_fit_insertion (modem_add_sms_recv modem_alloc (bytes "00")) (bytes "11")
      (by decide)).1 1 (by decide) (by decide) (by decide)).1,
   (first_fit_insertion (modem_add_sms_recv modem_alloc (bytes "00")) (bytes "11")
      (by decide)).2.2 _ 0 (by decide)
      (fun str hs => by
        simp only [List.mem_cons, StoreOp.delete.injEq, List.mem_singleton, reduceCtorEq,
          false_or, or_false, List.not_mem_nil] at hs
        rcases hs with hs | hs
        · subst hs
          decide
        · subst hs
          decide)⟩

/-! ## Message listing (C12) -/

theorem fmt_u_length_le_ten (n : Nat) (h : n < 10 ^ 10) : (fmt_u n).length ≤ 10 := by
  unfold fmt_u Nat.toDigits
  rw [List.length_map]
  exact Nat.toDigitsCore_length 10 (by decide) (n + 1) n 10 h (by decide)

theorem fmt_d_length_le (v : Int) (h1 : -(2 ^ 31) ≤ v) (h2 : v < 2 ^ 31) :
    (fmt_d v).length ≤ 11 := by
  unfold fmt_d
  split
  · have := fmt_u_length_le_ten v.natAbs (by omega)
    simp only [List.length_cons]; omega
  · have := fmt_u_length_le_ten v.toNat (by omega)
    omega

theorem cmgl_header_length_lt (i : Nat) (state : Int) (pdu : List Nat) (hi : i < MSGS_SIZE)
    (h1 : -(2 ^ 31) ≤ state) (h2 : state < 2 ^ 31) (h3 : pdu.length < 2 ^ 31) :
    (cmgl_header i state pdu).length < 0x100 := by
  have a := fmt_d_length_le (i : Int) (by omega) (by simp only [MSGS_SIZE] at hi; omega)
  have b := fmt_d_length_le state h1 h2
  have c := fmt_d_length_le ((pdu.length : Int) / 2) (by omega) (by omega)
  have h7 : (bytes "+CMGL: ").length = 7 := by decide
  have hc : (bytes ",").length = 1 := by decide
  have hcc : (bytes ",,").length = 2 := by decide
  simp only [cmgl_header, List.length_append, h7, hc, hcc]
  omega

theorem flatMap_agree {β : Type} (f g : Nat → List β) :
    ∀ l : List Nat, (∀ i, i ∈ l → f i = g i) → l.flatMap f = l.flatMap g := by
  intro l
  induction l with
  | nil => intro _; rfl
  | cons a as ih =>
    intro h
    rw [List.flatMap_cons, List.flatMap_cons, h a (by simp),
      ih (fun i hi => h i (List.mem_cons_of_mem _ hi))]

/-- C12: message listing.  For a store whose states and PDU lengths are values of
`int`, on a transport that never fails, `+CMGL` with parameter `4` returns 0, keeps
the state and writes for the slots 0..9 in this order, and only for the occupied
ones, the line `+CMGL: <idx>,<state>,,<n>`, CR LF, the PDU text and CR LF, `n` being
half the PDU length; with any other parameter it returns `-EINVAL`, keeps the state
and writes nothing. -/
theorem message_listing (m : modem_state) (t : Sink) (ht : NeverFails t)
    (hint : ∀ i, i < MSGS_SIZE → -(2 ^ 31) ≤ (m.slot i).state ∧ (m.slot i).state < 2 ^ 31
      ∧ ((m.slot i).pdu.getD []).length < 2 ^ 31) :
    ((mdm_cmd_cmgl_write (bytes "4") m).run t).1 = (0, m)
      ∧ ((mdm_cmd_cmgl_write (bytes "4") m).run t).2.log
          = t.log ++ (List.range MSGS_SIZE).flatMap (listing_lines m)
      ∧ (∀ i pdu, (m.slot i).pdu = some pdu →
          listing_lines m i
            = [(Origin.reply, bytes "+CMGL: " ++ fmt_d i ++ bytes "," ++ fmt_d (m.slot i).state
                  ++ bytes ",," ++ fmt_d ((pdu.length : Int) / 2)),
               (Origin.reply, bytes "\r\n"), (Origin.reply, pdu), (Origin.reply, bytes "\r\n")])
      ∧ (∀ i, (m.slot i).pdu = none → listing_lines m i = [])
      ∧ (∀ str, str ≠ bytes "4" → (mdm_cmd_cmgl_write str m).run t = ((-EINVAL, m), t)) := by
  obtain ⟨a1, a2, _⟩ := Prog.run_neverFails (mdm_cmd_cmgl_write (bytes "4") m) t ht
  rw [mdm_cmd_cmgl_write_eval0] at a1 a2
  refine ⟨a1, ?_, ?_, ?_, ?_⟩
  · rw [a2]
    congr 1
    apply flatMap_agree
    intro i hi
    have hi10 : i < MSGS_SIZE := List.mem_range.mp hi
    obtain ⟨h1, h2, h3⟩ := hint i hi10
    unfold cmgl_lines listing_lines
    cases hp : (m.slot i).pdu with
    | none => rfl
    | some pdu =>
      rw [hp] at h3
      simp only [Option.getD_some] at h3
      simp only [if_pos (cmgl_header_length_lt i _ pdu hi10 h1 h2 h3)]
      rfl
  · intro i pdu hp
    simp only [listing_lines, hp, cmgl_header]
  · intro i hp
    simp only [listing_lines, hp]
  · intro str hs
    unfold mdm_cmd_cmgl_write
    rw [if_pos hs]
    rfl

theorem message_listing_witness :
    NeverFails Sink.fresh
      ∧ (∀ i, i < MSGS_SIZE →
          -(2 ^ 31) ≤ ((modem_add_sms_recv modem_alloc (bytes "0011")).slot i).state
          ∧ ((modem_add_sms_recv modem_alloc (bytes "0011")).slot i).state < 2 ^ 31
          ∧ (((modem_add_sms_recv modem_alloc (bytes "0011")).slot i).pdu.getD []).length
              < 2 ^ 31)
      ∧ ((mdm_cmd_cmgl_write (bytes "4")
            (modem_add_sms_recv modem_alloc (bytes "0011"))).run Sink.fresh).2.log
          = Sink.fresh.log ++ (List.range MSGS_SIZE).flatMap
              (listing_lines (modem_add_sms_recv modem_alloc (bytes "0011")))
      ∧ ((mdm_cmd_cmgl_write (bytes "4")
            (modem_add_sms_recv modem_alloc (bytes "0011"))).run Sink.fresh).2.bytes
          = bytes "+CMGL: 0,0,,2\r\n0011\r\n" :=
  ⟨(fun _ hr => by cases hr), by decide,
   (message_listing (modem_add_sms_recv modem_alloc (bytes "0011")) Sink.fresh
      (fun _ hr => by cases hr) (by decide)).2.1,
   by decide⟩

/-! ## ICCID padding (C13) -/

theorem iccid_line_eq (iccid : List Nat) :
    iccid_line iccid
      = bytes "^ICCID: " ++ (iccid ++ List.replicate (20 - iccid.length) 70).take 20 := by
  have h8 : (bytes "^ICCID: ").length = 8 := by decide
  unfold iccid_line
  simp only [List.length_append, h8]
  by_cases h : 8 + iccid.length < 28
  · rw [if_pos h]
    have e1 : 28 - (8 + iccid.length) = 20 - iccid.length := by omega
    have e2 : (iccid ++ List.replicate (20 - iccid.length) 70).take 20
        = iccid ++ List.replicate (20 - iccid.length) 70 := by
      apply List.take_of_length_le
      simp only [List.length_append, List.length_replicate]; omega
    rw [e1, e2, List.take_replicate, List.append_assoc, Nat.min_eq_left (by omega)]
  · rw [if_neg h]
    have e1 : 20 - iccid.length = 0 := by omega
    rw [e1, List.replicate_zero, List.append_nil, List.take_append_eq_append_take, h8,
      List.take_of_length_le (by rw [h8]; omega)]

/-- C13, as stated: for the ICCID of `modem_alloc` (19 digits) the line written is
not the label followed by the ICCID padded with `F` to 28 characters. -/
theorem iccid_field_is_not_28_wide :
    modem_alloc.iccid.length ≤ 28
      ∧ ¬ (((mdm_cmd_iccid_read modem_alloc).run Sink.fresh).2.log.head?
            = some (Origin.reply, bytes "^ICCID: " ++ modem_alloc.iccid
                ++ List.replicate (28 - modem_alloc.iccid.length) 70)) := by
  decide

/-- C13, amended: for every modem state the `^ICCID` read handler returns 0, keeps
the state and writes the label `^ICCID: ` followed by a field of exactly 20
characters, then CR LF.  The field is the ICCID followed by `F` characters when the
ICCID has at most 20 characters (one `F` after the 19 digits of `modem_alloc`), and
the first 20 characters of a longer ICCID. -/
theorem iccid_padding (m : modem_state) :
    (mdm_cmd_iccid_read m).run Sink.fresh
        = ((0, m), { log := [(Origin.reply, bytes "^ICCID: "
                        ++ (m.iccid ++ List.replicate (20 - m.iccid.length) 70).take 20),
                      (Origin.reply, bytes "\r\n")],
                     script := [] })
      ∧ ((m.iccid ++ List.replicate (20 - m.iccid.length) 70).take 20).length = 20
      ∧ (m.iccid.length ≤ 20 →
          (m.iccid ++ List.replicate (20 - m.iccid.length) 70).take 20
            = m.iccid ++ List.replicate (20 - m.iccid.length) 70)
      ∧ ((mdm_cmd_iccid_read modem_alloc).run Sink.fresh).2.bytes
          = bytes "^ICCID: 8970169934461058920F\r\n" := by
  refine ⟨?_, ?_, ?_, by decide⟩
  · unfold mdm_cmd_iccid_read
    rw [iccid_line_eq]
    rfl
  · simp only [List.length_take, List.length_append, List.length_replicate]; omega
  · intro h
    apply List.take_of_length_le
    simp only [List.length_append, List.length_replicate]; omega

/-! ## The test message (C14, C15, C16, C17) -/

theorem hex_digit_upper_ge (d : Nat) : 48 ≤ hex_digit_upper d := by
  unfold hex_digit_upper; split <;> omega

theorem hex_digit_lower_ge (d : Nat) : 48 ≤ hex_digit_lower d := by
  unfold hex_digit_lower; split <;> omega

theorem digit_char_of_le (d : Nat) (h : d ≤ 9) : digit_char d = 48 + d := by
  unfold digit_char; omega

theorem cstr_of_all_ge (l : List Nat) (h : ∀ c, c ∈ l → 48 ≤ c) : cstr l = l :=
  cstr_of_no_nul l (fun h0 => absurd (h 0 h0) (by decide))

/-- The two bytes kept of the time-zone text. -/
theorem snprintf_zone (a b : Nat) :
    ∃ x y, snprintf 3 (fmt_1hhx a ++ fmt_1hhx b) = [x, y] ∧ 48 ≤ x ∧ 48 ≤ y := by
  unfold fmt_1hhx snprintf
  split <;> split <;>
    simp only [List.cons_append, List.nil_append, List.take_succ_cons, List.take_zero,
      List.take_nil, Nat.reduceSub] <;>
    exact ⟨_, _, rfl, hex_digit_lower_ge _, hex_digit_lower_ge _⟩

/-- For a valid time the timestamp is the twelve digit characters and the two
time-zone bytes: no NUL cuts it short. -/
theorem test_sms_scts_eq (t : tm) (hv : t.valid) :
    test_sms_scts t
      = [ 48 + t.tm_year % 100 % 10, 48 + t.tm_year % 100 / 10,
          48 + (t.tm_mon + 1) % 10, 48 + (t.tm_mon + 1) / 10,
          48 + t.tm_mday % 10, 48 + t.tm_mday / 10,
          48 + t.tm_hour % 10, 48 + t.tm_hour / 10,
          48 + t.tm_min % 10, 48 + t.tm_min / 10,
          48 + t.tm_sec % 10, 48 + t.tm_sec / 10 ]
        ++ snprintf 3 (fmt_1hhx (scts_zone t.tm_gmtoff % 10)
            ++ fmt_1hhx (scts_zone t.tm_gmtoff / 10)) := by
  obtain ⟨h1, h2, h3, h4, h5, h6⟩ := hv
  obtain ⟨x, y, hxy, hx, hy⟩ := snprintf_zone (scts_zone t.tm_gmtoff % 10)
    (scts_zone t.tm_gmtoff / 10)
  unfold test_sms_scts
  rw [digit_char_of_le _ (by omega), digit_char_of_le _ (by omega),
    digit_char_of_le _ (by omega), digit_char_of_le _ (by omega),
    digit_char_of_le _ (by omega), digit_char_of_le _ (by omega),
    digit_char_of_le _ (by omega), digit_char_of_le _ (by omega),
    digit_char_of_le _ (by omega), digit_char_of_le _ (by omega),
    digit_char_of_le _ (by omega), digit_char_of_le _ (by omega)]
  apply cstr_of_all_ge
  intro c hc
  rw [hxy] at hc
  simp only [List.cons_append, List.nil_append, List.mem_cons, List.mem_singleton,
    List.not_mem_nil, or_false] at hc
  omega

theorem test_sms_scts_length (t : tm) (hv : t.valid) : (test_sms_scts t).length = 14 := by
  obtain ⟨x, y, hxy, _, _⟩ := snprintf_zone (scts_zone t.tm_gmtoff % 10)
    (scts_zone t.tm_gmtoff / 10)
  rw [test_sms_scts_eq t hv, hxy]
  rfl

theorem test_sms_scts_ge (t : tm) (hv : t.valid) : ∀ c, c ∈ test_sms_scts t → 48 ≤ c := by
  obtain ⟨x, y, hxy, hx, hy⟩ := snprintf_zone (scts_zone t.tm_gmtoff % 10)
    (scts_zone t.tm_gmtoff / 10)
  rw [test_sms_scts_eq t hv, hxy]
  intro c hc
  simp only [List.cons_append, List.nil_append, List.mem_cons, List.mem_singleton,
    List.not_mem_nil, or_false] at hc
  omega

theorem fmt_02hhX_ge (v : Nat) : ∀ c, c ∈ fmt_02hhX v → 48 ≤ c := by
  intro c hc
  simp only [fmt_02hhX, List.mem_cons, List.mem_singleton, List.not_mem_nil, or_false] at hc
  rcases hc with h | h <;> rw [h] <;> exact hex_digit_upper_ge _

theorem test_sms_udh_eq (r i : Nat) :
    test_sms_udh r i
      = fmt_02hhX 5 ++ fmt_02hhX 0 ++ fmt_02hhX 3 ++ fmt_02hhX r ++ fmt_02hhX 3
          ++ fmt_02hhX (i + 1) := by
  unfold test_sms_udh test_sms_udh_template
  have e : snprintf 13 (fmt_02hhX 5 ++ fmt_02hhX 0 ++ fmt_02hhX 3 ++ fmt_02hhX r
      ++ fmt_02hhX PARTS_SIZE ++ fmt_02hhX 0)
      = fmt_02hhX 5 ++ fmt_02hhX 0 ++ fmt_02hhX 3 ++ fmt_02hhX r ++ fmt_02hhX 3
          ++ fmt_02hhX 0 := rfl
  have e2 : (fmt_02hhX 5 ++ fmt_02hhX 0 ++ fmt_02hhX 3 ++ fmt_02hhX r ++ fmt_02hhX 3
      ++ fmt_02hhX 0).take (5 * 2)
      = fmt_02hhX 5 ++ fmt_02hhX 0 ++ fmt_02hhX 3 ++ fmt_02hhX r ++ fmt_02hhX 3 := rfl
  have e3 : snprintf 3 (fmt_02hhX (i + 1)) = fmt_02hhX (i + 1) := rfl
  rw [e, e2, e3]
  apply cstr_of_all_ge
  intro c hc
  simp only [List.mem_append] at hc
  rcases hc with ((((h | h) | h) | h) | h) | h <;> exact fmt_02hhX_ge _ c h

theorem test_sms_udh_length (r i : Nat) : (test_sms_udh r i).length = 12 := by
  rw [test_sms_udh_eq]; rfl

set_option maxRecDepth 20000 in
theorem parts_ge : ∀ i, ∀ c, c ∈ parts.getD i [] → 48 ≤ c := by
  intro i c hc
  match i with
  | 0 => revert c; decide
  | 1 => revert c; decide
  | 2 => revert c; decide
  | n + 3 => simp [parts] at hc

set_option maxRecDepth 20000 in
theorem parts_length_le (i : Nat) : (parts.getD i []).length ≤ 268 := by
  match i with
  | 0 => decide
  | 1 => decide
  | 2 => decide
  | n + 3 => simp [parts]

set_option maxRecDepth 20000 in
/-- For a valid time neither `buf` nor a C string read cuts a PDU short: it is the
header, the timestamp, the length octet, the user-data header and the fragment. -/
theorem test_sms_pdu_eq (t : tm) (r i : Nat) (hv : t.valid) :
    test_sms_pdu t r i
      = (basehdr ++ test_sms_scts t)
          ++ (fmt_02hhX (test_sms_udl i) ++ test_sms_udh r i ++ parts.getD i []) := by
  have hb : basehdr.length = 38 := by decide
  have hbg : ∀ c, c ∈ basehdr → 48 ≤ c := by decide
  have hs := test_sms_scts_length t hv
  have hL : (basehdr ++ test_sms_scts t).length = 52 := by
    rw [List.length_append, hb, hs]
  have hp := parts_length_le i
  have hY : (fmt_02hhX (test_sms_udl i) ++ test_sms_udh r i ++ parts.getD i []).length
      ≤ 282 := by
    simp only [List.length_append, test_sms_udh_length, fmt_02hhX, List.length_cons,
      List.length_nil]
    omega
  unfold test_sms_pdu
  rw [hL]
  have e1 : (snprintf 0x200 (basehdr ++ test_sms_scts t)).take 52
      = basehdr ++ test_sms_scts t := by
    unfold snprintf
    have e0 : List.take (0x200 - 1) (basehdr ++ test_sms_scts t)
        = basehdr ++ test_sms_scts t := List.take_of_length_le (by rw [hL]; decide)
    rw [e0]
    exact List.take_of_length_le (by rw [hL])
  have e2 : snprintf (0x200 - 52)
      (fmt_02hhX (test_sms_udl i) ++ test_sms_udh r i ++ parts.getD i [])
      = fmt_02hhX (test_sms_udl i) ++ test_sms_udh r i ++ parts.getD i [] := by
    unfold snprintf
    exact List.take_of_length_le (by omega)
  rw [e1, e2]
  apply cstr_of_all_ge
  intro c hc
  simp only [List.mem_append] at hc
  rcases hc with (h | h) | ((h | h) | h)
  · exact hbg c h
  · exact test_sms_scts_ge t hv c h
  · exact fmt_02hhX_ge _ c h
  · rw [test_sms_udh_eq] at h
    simp only [List.mem_append] at h
    rcases h with ((((h | h) | h) | h) | h) | h <;> exact fmt_02hhX_ge _ c h
  · exact parts_ge i c h

theorem drop_take_middle (a b c : List Nat) (n k : Nat) (ha : a.length = n)
    (hb : b.length = k) : ((a ++ (b ++ c)).drop n).take k = b := by
  rw [List.drop_left' ha, List.take_left' hb]

theorem hex_value_upper (d : Nat) (h : d < 16) : hex_value (hex_digit_upper d) = d := by
  revert d; decide

theorem hex_value_lower (d : Nat) (h : d < 16) : hex_value (hex_digit_lower d) = d := by
  revert d; decide

theorem hex_value_digit (d : Nat) (h : d ≤ 9) : hex_value (48 + d) = d := by
  have : ∀ d, d < 10 → hex_value (48 + d) = d := by decide
  exact this d (by omega)

set_option maxRecDepth 20000 in
/-- C14, as stated: with reference byte 0xAB the user-data header of the first part
is not `05 08 03 AB 03 01`. -/
theorem udh_element_id_is_not_08 :
    ¬ (((test_sms_pdu tm.sample 0xAB 0).drop 54).take 12 = bytes "050803AB0301") := by
  decide

/-- C14, amended: for every valid time, reference byte `r` and part `i + 1` of the 3
parts, the characters 54..65 of the PDU are the user-data header, and this header is
the six octets 05, 00, 03, `r`, 03 and `i + 1`, each as two upper-case hexadecimal
digits; `r` is the same in all parts. -/
theorem udh_of_test_sms (t : tm) (r i : Nat) (hv : t.valid) (hr : r < 256)
    (hi : i < PARTS_SIZE) :
    ((test_sms_pdu t r i).drop 54).take 12 = test_sms_udh r i
      ∧ test_sms_udh r i
          = [48, 53, 48, 48, 48, 51, hex_digit_upper (r / 16), hex_digit_upper (r % 16),
             48, 51, 48, 49 + i]
      ∧ (List.range 6).map (fun j =>
            16 * (octet_at (test_sms_udh r i) j).1 + (octet_at (test_sms_udh r i) j).2)
          = [5, 0, 3, r, PARTS_SIZE, i + 1] := by
  have hb : basehdr.length = 38 := by decide
  have hs := test_sms_scts_length t hv
  have hu : test_sms_udh r i
      = [48, 53, 48, 48, 48, 51, hex_digit_upper (r / 16), hex_digit_upper (r % 16),
         48, 51, 48, 49 + i] := by
    rw [test_sms_udh_eq]
    have hr2 : r % 256 = r := Nat.mod_eq_of_lt hr
    have hi3 : fmt_02hhX (i + 1) = [48, 49 + i] := by
      simp only [PARTS_SIZE] at hi
      interval_cases i <;> rfl
    rw [hi3]
    simp only [fmt_02hhX, hr2]
    rfl
  refine ⟨?_, hu, ?_⟩
  · rw [test_sms_pdu_eq t r i hv]
    have e : basehdr ++ test_sms_scts t
        ++ (fmt_02hhX (test_sms_udl i) ++ test_sms_udh r i ++ parts.getD i [])
        = (basehdr ++ test_sms_scts t ++ fmt_02hhX (test_sms_udl i))
          ++ (test_sms_udh r i ++ parts.getD i []) := by
      simp only [List.append_assoc]
    rw [e]
    exact drop_take_middle _ _ _ 54 12
      (by simp only [List.length_append, hb, hs, fmt_02hhX, List.length_cons,
            List.length_nil])
      (test_sms_udh_length r i)
  · rw [hu]
    have h1 := hex_value_upper (r / 16) (by omega)
    have h2 := hex_value_upper (r % 16) (by omega)
    have h3 : hex_value (49 + i) = i + 1 := by
      simp only [PARTS_SIZE] at hi
      interval_cases i <;> rfl
    have h48 : hex_value 48 = 0 := by decide
    have h53 : hex_value 53 = 5 := by decide
    have h51 : hex_value 51 = 3 := by decide
    have hm : (List.range 6).map (fun j =>
          16 * (octet_at [48, 53, 48, 48, 48, 51, hex_digit_upper (r / 16),
                  hex_digit_upper (r % 16), 48, 51, 48, 49 + i] j).1
            + (octet_at [48, 53, 48, 48, 48, 51, hex_digit_upper (r / 16),
                  hex_digit_upper (r % 16), 48, 51, 48, 49 + i] j).2)
        = [16 * hex_value 48 + hex_value 53, 16 * hex_value 48 + hex_value 48,
           16 * hex_value 48 + hex_value 51,
           16 * hex_value (hex_digit_upper (r / 16)) + hex_value (hex_digit_upper (r % 16)),
           16 * hex_value 48 + hex_value 51, 16 * hex_value 48 + hex_value (49 + i)] := rfl
    rw [hm, h1, h2, h3, h48, h53, h51]
    simp only [PARTS_SIZE, List.cons.injEq, and_true, true_and, Nat.mul_zero, Nat.zero_add]
    omega

theorem udh_of_test_sms_witness :
    tm.sample.valid ∧ 171 < 256 ∧ 1 < PARTS_SIZE
      ∧ ((test_sms_pdu tm.sample 171 1).drop 54).take 12 = test_sms_udh 171 1
      ∧ test_sms_udh 171 1
          = [48, 53, 48, 48, 48, 51, hex_digit_upper (171 / 16), hex_digit_upper (171 % 16),
             48, 51, 48, 49 + 1]
      ∧ (List.range 6).map (fun j =>
            16 * (octet_at (test_sms_udh 171 1) j).1 + (octet_at (test_sms_udh 171 1) j).2)
          = [5, 0, 3, 171, PARTS_SIZE, 1 + 1] :=
  ⟨by decide, by decide, by decide,
   udh_of_test_sms tm.sample 171 1 (by decide) (by decide) (by decide)⟩

/-- C15, as stated: for 2023-11-25 13:47:52 the year octet does not have the units
digit of 23 in its low nibble and the tens digit in its high nibble. -/
theorem timestamp_year_octet_is_swapped :
    ¬ ((octet_at (test_sms_scts tm.sample) 0).2 = tm.sample.tm_year % 100 % 10
        ∧ (octet_at (test_sms_scts tm.sample) 0).1 = tm.sample.tm_year % 100 / 10) := by
  decide

/-- C15, amended: for every valid time the characters 38..51 of each PDU are the
timestamp, and its first six octets are year % 100, month (1..12), day, hour, minute
and second, each with the units digit in the high nibble (first character) and the
tens digit in the low nibble (second character). -/
theorem timestamp_digits (t : tm) (r i : Nat) (hv : t.valid) :
    ((test_sms_pdu t r i).drop 38).take 14 = test_sms_scts t
      ∧ octet_at (test_sms_scts t) 0 = (t.tm_year % 100 % 10, t.tm_year % 100 / 10)
      ∧ octet_at (test_sms_scts t) 1 = ((t.tm_mon + 1) % 10, (t.tm_mon + 1) / 10)
      ∧ octet_at (test_sms_scts t) 2 = (t.tm_mday % 10, t.tm_mday / 10)
      ∧ octet_at (test_sms_scts t) 3 = (t.tm_hour % 10, t.tm_hour / 10)
      ∧ octet_at (test_sms_scts t) 4 = (t.tm_min % 10, t.tm_min / 10)
      ∧ octet_at (test_sms_scts t) 5 = (t.tm_sec % 10, t.tm_sec / 10)
      ∧ 1 ≤ t.tm_mon + 1 ∧ t.tm_mon + 1 ≤ 12 := by
  have hb : basehdr.length = 38 := by decide
  have hs := test_sms_scts_length t hv
  have hd : ∀ d, d ≤ 9 → hex_value (48 + d) = d := hex_value_digit
  obtain ⟨h1, h2, h3, h4, h5, h6⟩ := hv
  refine ⟨?_, ?_, ?_, ?_, ?_, ?_, ?_, by omega, by omega⟩
  · rw [test_sms_pdu_eq t r i ⟨h1, h2, h3, h4, h5, h6⟩, List.append_assoc]
    exact drop_take_middle _ _ _ 38 14 hb hs
  all_goals
    rw [test_sms_scts_eq t ⟨h1, h2, h3, h4, h5, h6⟩]
    refine Prod.ext ?_ ?_
  · exact hd _ (by omega)
  · exact hd _ (by omega)
  · exact hd _ (by omega)
  · exact hd _ (by omega)
  · exact hd _ (by omega)
  · exact hd _ (by omega)
  · exact hd _ (by omega)
  · exact hd _ (by omega)
  · exact hd _ (by omega)
  · exact hd _ (by omega)
  · exact hd _ (by omega)
  · exact hd _ (by omega)

theorem timestamp_digits_witness :
    tm.sample.valid
      ∧ ((test_sms_pdu tm.sample 7 0).drop 38).take 14 = test_sms_scts tm.sample
      ∧ octet_at (test_sms_scts tm.sample) 0
          = (tm.sample.tm_year % 100 % 10, tm.sample.tm_year % 100 / 10)
      ∧ test_sms_scts tm.sample = bytes "32115231742580" :=
  ⟨by decide, (timestamp_digits tm.sample 7 0 (by decide)).1,
   (timestamp_digits tm.sample 7 0 (by decide)).2.1, by decide⟩

/-- The two time-zone bytes for `q` quarters of an hour, `q < 80`. -/
theorem zone_bytes :
    ∀ q, q < 80 →
      snprintf 3 (fmt_1hhx (q % 10) ++ fmt_1hhx (q / 10))
          = [hex_digit_lower (q % 10), hex_digit_lower (q / 10)]
        ∧ snprintf 3 (fmt_1hhx ((q + 8 * 10) % 10) ++ fmt_1hhx ((q + 8 * 10) / 10))
          = [hex_digit_lower (q % 10), hex_digit_lower (q / 10 + 8)] := by
  decide

theorem scts_zone_eq (gmtoff : Int) :
    scts_zone gmtoff
      = if gmtoff < 0 then gmtoff.natAbs / 900 + 8 * 10 else gmtoff.natAbs / 900 := by
  have h : (if gmtoff > 0 then gmtoff else -gmtoff).toNat = gmtoff.natAbs := by
    split <;> omega
  unfold scts_zone
  rw [h, Nat.div_div_eq_div_mul]

/-- C16: timestamp time-zone octet.  For every valid time whose offset is below 20
hours in absolute value, with `q = |offset| / 900`, the seventh octet of the
timestamp is the character of `q % 10` followed by the hexadecimal character of
`q / 10`, increased by 8 exactly when the offset is negative; the timestamp has 14
characters, all hexadecimal digits. -/
theorem timestamp_zone (t : tm) (hv : t.valid) (hoff : t.tm_gmtoff.natAbs < 72000) :
    (test_sms_scts t).drop 12
        = [hex_digit_lower (t.tm_gmtoff.natAbs / 900 % 10),
           hex_digit_lower (t.tm_gmtoff.natAbs / 900 / 10
             + (if t.tm_gmtoff < 0 then 8 else 0))]
      ∧ octet_at (test_sms_scts t) 6
          = (t.tm_gmtoff.natAbs / 900 % 10,
             t.tm_gmtoff.natAbs / 900 / 10 + (if t.tm_gmtoff < 0 then 8 else 0))
      ∧ t.tm_gmtoff.natAbs / 900 / 10 ≤ 7
      ∧ (test_sms_scts t).length = 14
      ∧ (∀ c, c ∈ test_sms_scts t → (48 ≤ c ∧ c ≤ 57) ∨ (97 ≤ c ∧ c ≤ 102)) := by
  have hq : t.tm_gmtoff.natAbs / 900 < 80 := by omega
  obtain ⟨z1, z2⟩ := zone_bytes _ hq
  have hz : snprintf 3 (fmt_1hhx (scts_zone t.tm_gmtoff % 10)
        ++ fmt_1hhx (scts_zone t.tm_gmtoff / 10))
      = [hex_digit_lower (t.tm_gmtoff.natAbs / 900 % 10),
         hex_digit_lower (t.tm_gmtoff.natAbs / 900 / 10
           + (if t.tm_gmtoff < 0 then 8 else 0))] := by
    rw [scts_zone_eq]
    by_cases hn : t.tm_gmtoff < 0
    · simp only [if_pos hn]; exact z2
    · simp only [if_neg hn, Nat.add_zero]; exact z1
  have hlo : ∀ d, d < 16 → (48 ≤ hex_digit_lower d ∧ hex_digit_lower d ≤ 57)
      ∨ (97 ≤ hex_digit_lower d ∧ hex_digit_lower d ≤ 102) := by decide
  have hv2 := hv
  obtain ⟨h1, h2, h3, h4, h5, h6⟩ := hv2
  have e := test_sms_scts_eq t hv
  rw [hz] at e
  refine ⟨?_, ?_, by omega, test_sms_scts_length t hv, ?_⟩
  · rw [e]; rfl
  · rw [e]
    refine Prod.ext ?_ ?_
    · exact hex_value_lower _ (by omega)
    · exact hex_value_lower _ (by split <;> omega)
  · intro c hc
    rw [e] at hc
    simp only [List.cons_append, List.nil_append, List.mem_cons, List.mem_singleton,
      List.not_mem_nil, or_false] at hc
    rcases hc with h | h | h | h | h | h | h | h | h | h | h | h | h | h
    all_goals first
      | (left; omega)
      | (rw [h]; exact hlo _ (by first | omega | (split <;> omega)))

theorem timestamp_zone_witness :
    ({ tm.sample with tm_gmtoff := -18000 } : tm).valid
      ∧ ({ tm.sample with tm_gmtoff := -18000 } : tm).tm_gmtoff.natAbs < 72000
      ∧ (test_sms_scts { tm.sample with tm_gmtoff := -18000 }).drop 12
          = [hex_digit_lower ((-18000 : Int).natAbs / 900 % 10),
             hex_digit_lower ((-18000 : Int).natAbs / 900 / 10 + 8)]
      ∧ test_sms_scts { tm.sample with tm_gmtoff := -18000 } = bytes "3211523174250a" :=
  ⟨by decide, by decide,
   (timestamp_zone { tm.sample with tm_gmtoff := -18000 } (by decide) (by decide)).1,
   by decide⟩

set_option maxRecDepth 20000 in
/-- C17: PDU layout and user-data length.  For every valid time, reference byte and
loop round `i` (part `i + 1`), the string handed to `modem_add_sms_recv` is the
38-character header, the 14-character timestamp, the length octet as two upper-case
hexadecimal digits, the 12-character user-data header of the part and the fragment,
the length being `((n + 12) / 2 * 8) / 7` for a fragment of `n` characters; it is
shorter than the 512-byte buffer, so nothing is cut.  `modem_add_test_sms` inserts
the three strings in this order. -/
theorem pdu_layout (t : tm) (r i : Nat) (hv : t.valid) :
    test_sms_pdu t r i
        = basehdr ++ test_sms_scts t ++ fmt_02hhX (test_sms_udl i) ++ test_sms_udh r i
            ++ parts.getD i []
      ∧ basehdr.length = 38 ∧ (test_sms_scts t).length = 14
      ∧ (test_sms_udh r i).length = 12
      ∧ test_sms_udl i = ((parts.getD i []).length + 12) / 2 * 8 / 7
      ∧ fmt_02hhX (test_sms_udl i)
          = [hex_digit_upper (test_sms_udl i / 16), hex_digit_upper (test_sms_udl i % 16)]
      ∧ (test_sms_pdu t r i).length = 66 + (parts.getD i []).length
      ∧ (test_sms_pdu t r i).length < 0x200
      ∧ parts.length = PARTS_SIZE
      ∧ parts.map List.length = [268, 268, 244]
      ∧ (List.range PARTS_SIZE).map test_sms_udl = [160, 160, 146]
      ∧ (∀ m, modem_add_test_sms m t r
          = modem_add_sms_recv (modem_add_sms_recv (modem_add_sms_recv m
              (test_sms_pdu t r 0)) (test_sms_pdu t r 1)) (test_sms_pdu t r 2)) := by
  have hb : basehdr.length = 38 := by decide
  have hs := test_sms_scts_length t hv
  have hp := parts_length_le i
  have hudl : test_sms_udl i % 256 = test_sms_udl i := by
    apply Nat.mod_eq_of_lt
    unfold test_sms_udl
    omega
  have hlen : (test_sms_pdu t r i).length = 66 + (parts.getD i []).length := by
    rw [test_sms_pdu_eq t r i hv]
    simp only [List.length_append, hb, hs, test_sms_udh_length, fmt_02hhX, List.length_cons,
      List.length_nil]
    omega
  refine ⟨?_, hb, hs, test_sms_udh_length r i, rfl, ?_, hlen, ?_, by decide, by decide,
    by decide, fun m => rfl⟩
  · rw [test_sms_pdu_eq t r i hv]
    simp only [List.append_assoc]
  · simp only [fmt_02hhX, hudl]
  · rw [hlen]
    have : (0x200 : Nat) = 512 := rfl
    omega

set_option maxRecDepth 20000 in
theorem pdu_layout_witness :
    tm.sample.valid
      ∧ test_sms_pdu tm.sample 171 2
          = basehdr ++ test_sms_scts tm.sample ++ fmt_02hhX (test_sms_udl 2)
              ++ test_sms_udh 171 2 ++ parts.getD 2 []
      ∧ (test_sms_pdu tm.sample 171 2).take 66
          = bytes "07819700214365F7400B819710325476F80000"
              ++ bytes "32115231742580" ++ bytes "92" ++ bytes "050003AB0303" :=
  ⟨by decide, (pdu_layout tm.sample 171 2 (by decide)).1, by decide⟩

/-! ## Echo of junk (C18, C20) and the S3 entry (C19) -/

end ModemEmul
namespace ModemEmul

/-- C19, as stated: the plain form `ATS3` is supported; it is resolved by the generic
table with result 0 and answered `OK`, not `ERROR`. -/
theorem plain_s3_is_supported :
    ((atport_parse modem_atcommands (bytes "ATS3\r") (Session.init modem_alloc)).run
        Sink.fresh).1.map (fun r => r.2.trace) = some [(bytes "S3", 0)]
      ∧ ((atport_parse modem_atcommands (bytes "ATS3\r") (Session.init modem_alloc)).run
          Sink.fresh).2.replies = [[], bytes "\r\n", bytes "\r\nOK\r\n"]
      ∧ ¬ (((atport_parse modem_atcommands (bytes "ATS3\r") (Session.init modem_alloc)).run
          Sink.fresh).2.replies = [[], bytes "\r\n", bytes "ERROR\r\n"]) := by
  decide

/-- C19, amended: the `S3` entry of the generic table has a read handler and a stub
exec handler.  For every port `S3?` runs `atport_gen_cmd_s3_read`, the plain `S3`
returns 0 and changes nothing, and `S3=?` and every `S3=<v>` return `-ENOENT`.  On a
modem session `ATS3?` is answered `013` and `OK`, `ATS3` is answered `OK`, `ATS3=?`
and `ATS3=13` are answered `ERROR`. -/
theorem s3_forms (port : atport) :
    atport_generic_cmd port (bytes "S3?") = atport_gen_cmd_s3_read port
      ∧ atport_generic_cmd port (bytes "S3") = Prog.ret (0, port)
      ∧ atport_generic_cmd port (bytes "S3=?") = Prog.ret (-ENOENT, port)
      ∧ (∀ v : List Nat, v ≠ bytes "?" →
          atport_generic_cmd port (bytes "S3=" ++ v) = Prog.ret (-ENOENT, port))
      ∧ ((atport_parse modem_atcommands (bytes "ATS3?\r") (Session.init modem_alloc)).run
          Sink.fresh).2.replies
          = [[], bytes "\r\n", bytes "013", bytes "\r\n", bytes "\r\nOK\r\n"]
      ∧ ((atport_parse modem_atcommands (bytes "ATS3\r") (Session.init modem_alloc)).run
          Sink.fresh).2.replies = [[], bytes "\r\n", bytes "\r\nOK\r\n"]
      ∧ ((atport_parse modem_atcommands (bytes "ATS3=?\r") (Session.init modem_alloc)).run
          Sink.fresh).2.replies = [[], bytes "\r\n", bytes "ERROR\r\n"]
      ∧ ((atport_parse modem_atcommands (bytes "ATS3=13\r") (Session.init modem_alloc)).run
          Sink.fresh).2.replies = [[], bytes "\r\n", bytes "ERROR\r\n"] := by
  refine ⟨rfl, rfl, rfl, ?_, by decide, by decide, by decide, by decide⟩
  intro v hv
  have hline : bytes "S3=" ++ v = 83 :: 51 :: 61 :: v := rfl
  have hcs : strcspn (83 :: 51 :: 61 :: v) [61, 63] = 2 := rfl
  have hlk : atcmd_lookup (83 :: 51 :: 61 :: v) 2 atport_gen_cmds
      = some { name := bytes "S3", exec := some atport_gen_cmd_stub,
               read := some atport_gen_cmd_s3_read } := rfl
  unfold atport_generic_cmd atport_cmd_lookup_and_exec
  rw [hline]
  simp only [hcs, hlk]
  have hd : List.drop 2 (83 :: 51 :: 61 :: v) = 61 :: v := rfl
  rw [hd]
  have h1 : ¬ (61 :: v = [61, 63]) := by
    intro h
    apply hv
    simpa using h
  rw [if_neg h1, if_neg (by simp), if_neg (by simp)]

/-- C20: a junk byte is echoed and an accepted byte is not.  On a new session (echo
on, `echo_junk` off) the chunk `AxAT\r` is echoed as `xAT`: the junk byte `x` is
written back and the `A` before it, accepted in `WAIT_A`, is not. -/
theorem junk_after_a_is_echoed :
    (Session.init modem_alloc).port.echo = true
      ∧ (Session.init modem_alloc).port.echo_junk = false
      ∧ ((atport_parse modem_atcommands (bytes "AxAT\r") (Session.init modem_alloc)).run
          Sink.fresh).2.echoed = [bytes "xAT"]
      ∧ ((atport_parse modem_atcommands (bytes "AxAT\r") (Session.init modem_alloc)).run
          Sink.fresh).1.map (fun r => r.2.trace) = some [([], 0)] := by
  decide

/-! ## Signal-level invariant (C22) -/

theorem modem_tick_range (m : modem_state) (h : -109 ≤ m.rssi ∧ m.rssi ≤ -55) :
    -109 ≤ (modem_tick m).rssi ∧ (modem_tick m).rssi ≤ -55 := by
  unfold modem_tick
  split
  · simp
  · simp only; omega

theorem modem_ticks_range (n : Nat) :
    ∀ m : modem_state, -109 ≤ m.rssi ∧ m.rssi ≤ -55 →
      -109 ≤ (modem_ticks n m).rssi ∧ (modem_ticks n m).rssi ≤ -55 := by
  induction n with
  | zero => intro m h; exact h
  | succ n ih => intro m h; exact ih (modem_tick m) (modem_tick_range m h)

theorem csq_signal_range (rssi : Int) (h : -109 ≤ rssi ∧ rssi ≤ -55) :
    3 ≤ csq_signal rssi ∧ csq_signal rssi ≤ 28 := by
  have e := csq_signal_eq_spec rssi
  have hs : 3 ≤ spec_signal rssi ∧ spec_signal rssi ≤ 28 := by
    unfold spec_signal
    split
    · omega
    · split
      · omega
      · split
        · omega
        · omega
  omega

/-- C22: signal-level invariant.  After any number of `modem_tick` calls on the state
of `modem_alloc` the rssi is between -109 and -55 and is not 0, the signal value of
`+CSQ` is between 3 and 28 and is not 99, and the line written is `+CSQ: <s>,99`
with that value. -/
theorem signal_level_invariant (n : Nat) :
    -109 ≤ (modem_ticks n modem_alloc).rssi ∧ (modem_ticks n modem_alloc).rssi ≤ -55
      ∧ (modem_ticks n modem_alloc).rssi ≠ 0
      ∧ 3 ≤ csq_signal (modem_ticks n modem_alloc).rssi
      ∧ csq_signal (modem_ticks n modem_alloc).rssi ≤ 28
      ∧ csq_signal (modem_ticks n modem_alloc).rssi ≠ 99
      ∧ ((mdm_cmd_csq_exec (modem_ticks n modem_alloc)).run Sink.fresh).2.log
          = [(Origin.reply, bytes "+CSQ: "
                ++ fmt_u (csq_signal (modem_ticks n modem_alloc).rssi) ++ bytes ",99"),
             (Origin.reply, bytes "\r\n")] := by
  have hr := modem_ticks_range n modem_alloc (by decide)
  have hc := csq_signal_range _ hr
  refine ⟨hr.1, hr.2, by omega, hc.1, hc.2, by omega, ?_⟩
  have hl := fmt_u_length_le _ (csq_signal_lt (modem_ticks n modem_alloc).rssi)
  have hlen : (bytes "+CSQ: " ++ fmt_u (csq_signal (modem_ticks n modem_alloc).rssi)
      ++ bytes ",99").length < 0x100 := by
    have h6 : (bytes "+CSQ: ").length = 6 := by decide
    have h3 : (bytes ",99").length = 3 := by decide
    simp only [List.length_append, h6, h3]
    omega
  unfold mdm_cmd_csq_exec atport_printf
  rw [if_pos hlen]
  rfl

/-! ## Replay of a byte and termination (C21) -/

theorem Prog.all_run {α : Type} (P : α → Prop) (p : Prog α) (h : p.all P) :
    ∀ t : Sink, P (p.run t).1 := by
  induction p with
  | ret a => intro t; exact h
  | write o d k ih => intro t; exact ih _ (h _) _

theorem Prog.all_bind {α β : Type} (Q : β → Prop) (p : Prog α) (f : α → Prog β)
    (h : ∀ a, (f a).all Q) : (p.bind f).all Q := by
  induction p with
  | ret a => exact h a
  | write o d k ih => intro r; exact ih r

/-- Above its measure the loop of `atport_parse` never runs out of fuel, whatever the
transport answers and whatever the handlers do. -/
theorem atport_parse_loop_total {μ : Type} (cmds : List (atcmd μ)) (buf : List Nat) :
    ∀ (fuel i s : Nat) (st : Session μ),
      parse_measure buf.length i st.port.pstate < fuel →
      (atport_parse_loop cmds buf fuel i s st).all (fun o => o ≠ none) := by
  intro fuel
  induction fuel with
  | zero => intro i s st h; exact absurd h (Nat.not_lt_zero _)
  | succ fuel ih =>
    intro i s st h
    rw [atport_parse_loop]
    by_cases hi : i < buf.length
    · rw [if_pos hi]
      cases hp : st.port.pstate with
      | WAIT_A =>
        simp only [hp, parse_measure] at h ⊢
        split
        · exact ih _ _ _ (by simp only [parse_measure]; simp; omega)
        · split
          · exact ih _ _ _ (by simp only [parse_measure, hp]; simp; omega)
          · exact ih _ _ _ (by simp only [parse_measure, hp]; simp; omega)
      | WAIT_T =>
        simp only [hp, parse_measure] at h ⊢
        split
        · exact ih _ _ _ (by simp only [parse_measure]; simp; omega)
        · exact ih _ _ _ (by simp only [parse_measure]; simp at h ⊢; omega)
      | WAIT_TERM =>
        simp only [hp, parse_measure] at h ⊢
        have hrun : ∀ st2 : Session μ,
            ((atport_cmd_exec cmds st2).bind (fun e =>
              if e.1 < 0 then Prog.ret (some (e.1, e.2))
              else atport_parse_loop cmds buf fuel (i + 1) (i + 1)
                { e.2 with port := { e.2.port with pstate := .WAIT_A, cmdlen := 0 } })).all
              (fun o => o ≠ none) := by
          intro st2
          apply Prog.all_bind
          intro e
          split
          · simp [Prog.all]
          · exact ih _ _ _ (by simp only [parse_measure]; simp; omega)
        by_cases hc : buf.getD i 0 ≠ st.port.s3
        · simp only [if_pos hc]
          exact ih _ _ _ (by simp only [parse_measure, hp]; simp; omega)
        · simp only [if_neg hc]
          by_cases he : st.port.echo = true ∧ i > s
          · simp only [if_pos he]
            intro r
            by_cases hr : r < 0
            · simp only [if_pos hr]; simp [Prog.all]
            · simp only [if_neg hr]; exact hrun _
          · simp only [if_neg he]; exact hrun _
    · rw [if_neg hi]
      split
      · intro r
        by_cases hr : r < 0
        · simp [hr, Prog.all]
        · simp [hr, Prog.all]
      · simp [Prog.all]

theorem atport_parse_loop_a_accept {μ : Type} (cmds : List (atcmd μ)) (buf : List Nat)
    (f i s : Nat) (sx : Session μ) (hi : i < buf.length) (hp : sx.port.pstate = .WAIT_A)
    (hc : buf.getD i 0 = 65 ∨ buf.getD i 0 = 97) :
    atport_parse_loop cmds buf (f + 1) i s sx
      = atport_parse_loop cmds buf f (i + 1) s
          { sx with port := { sx.port with pstate := .WAIT_T } } := by
  rw [atport_parse_loop, if_pos hi]
  simp only [hp, if_pos hc]

theorem atport_parse_loop_a_round {μ : Type} (cmds : List (atcmd μ)) (buf : List Nat)
    (f i s : Nat) (sx : Session μ) (hi : i < buf.length) (hp : sx.port.pstate = .WAIT_A) :
    ∃ (s1 : Nat) (sx1 : Session μ),
      atport_parse_loop cmds buf (f + 1) i s sx
        = atport_parse_loop cmds buf f (i + 1) s1 sx1 := by
  rw [atport_parse_loop, if_pos hi]
  simp only [hp]
  by_cases hc : buf.getD i 0 = 65 ∨ buf.getD i 0 = 97
  · rw [if_pos hc]; exact ⟨_, _, rfl⟩
  · rw [if_neg hc]
    by_cases hj : sx.port.echo_junk = false
    · rw [if_pos hj]; exact ⟨_, _, rfl⟩
    · rw [if_neg hj]; exact ⟨_, _, rfl⟩

theorem atport_parse_loop_t_accept {μ : Type} (cmds : List (atcmd μ)) (buf : List Nat)
    (f i s : Nat) (sx : Session μ) (hi : i < buf.length) (hp : sx.port.pstate = .WAIT_T)
    (hc : buf.getD i 0 = 84 ∨ buf.getD i 0 = 116) :
    atport_parse_loop cmds buf (f + 1) i s sx
      = atport_parse_loop cmds buf f (i + 1) s
          { sx with port := { sx.port with pstate := .WAIT_TERM } } := by
  rw [atport_parse_loop, if_pos hi]
  simp only [hp, if_pos hc]

theorem atport_parse_loop_t_replay {μ : Type} (cmds : List (atcmd μ)) (buf : List Nat)
    (f i s : Nat) (sx : Session μ) (hi : i < buf.length) (hp : sx.port.pstate = .WAIT_T)
    (hc : ¬ (buf.getD i 0 = 84 ∨ buf.getD i 0 = 116)) :
    atport_parse_loop cmds buf (f + 1) i s sx
      = atport_parse_loop cmds buf f i s
          { sx with port := { sx.port with pstate := .WAIT_A } } := by
  rw [atport_parse_loop, if_pos hi]
  simp only [hp, if_neg hc]

theorem atport_parse_loop_end {μ : Type} (cmds : List (atcmd μ)) (buf : List Nat)
    (f i s : Nat) (sx : Session μ) (hi : ¬ i < buf.length) :
    (atport_parse_loop cmds buf (f + 1) i s sx).all (fun o => ∃ r, o = some (r, sx)) := by
  rw [atport_parse_loop, if_neg hi]
  by_cases he : sx.port.echo = true ∧ i > s
  · rw [if_pos he]
    intro r
    by_cases hr : r < 0
    · simp only [if_pos hr]; exact ⟨_, rfl⟩
    · simp only [if_neg hr]; exact ⟨_, rfl⟩
  · rw [if_neg he]; exact ⟨_, rfl⟩

/-- The bytes `A` and `T` fed alone leave the session in `WAIT_TERM` and change nothing
else, whatever the transport answers to the echo write. -/
theorem atport_parse_at {μ : Type} (cmds : List (atcmd μ)) (st : Session μ) (a tt : Nat)
    (hst : st.port.pstate = .WAIT_A ∨ st.port.pstate = .WAIT_T)
    (ha : a = 65 ∨ a = 97) (htt : tt = 84 ∨ tt = 116) :
    (atport_parse cmds [a, tt] st).all (fun o =>
      ∃ r, o = some (r, { st with port := { st.port with pstate := .WAIT_TERM } })) := by
  have hna : ¬ (a = 84 ∨ a = 116) := by omega
  unfold atport_parse
  rcases hst with hp | hp
  · rw [show 2 * [a, tt].length + 2 = 3 + 1 + 1 + 1 from rfl,
      atport_parse_loop_a_accept cmds [a, tt] _ 0 0 st (by simp) hp ha,
      atport_parse_loop_t_accept cmds [a, tt] _ 1 0 _ (by simp) rfl htt]
    exact atport_parse_loop_end cmds [a, tt] 3 2 0 _ (by simp)
  · rw [show 2 * [a, tt].length + 2 = 2 + 1 + 1 + 1 + 1 from rfl,
      atport_parse_loop_t_replay cmds [a, tt] _ 0 0 st (by simp) hp hna,
      atport_parse_loop_a_accept cmds [a, tt] _ 0 0 _ (by simp) rfl ha,
      atport_parse_loop_t_accept cmds [a, tt] _ 1 0 _ (by simp) rfl htt]
    exact atport_parse_loop_end cmds [a, tt] 2 2 0 _ (by simp)

theorem byte_step_a {μ : Type} (cmds : List (atcmd μ)) (st : Session μ) (a : Nat)
    (hst : st.port.pstate = .WAIT_A ∨ st.port.pstate = .WAIT_T) (ha : a = 65 ∨ a = 97) :
    byte_step cmds st a = ({ st with port := { st.port with pstate := .WAIT_T } }, []) := by
  have hna : ¬ (a = 84 ∨ a = 116) := by omega
  unfold byte_step
  rcases hst with hp | hp
  · simp only [hp, if_pos ha]
  · simp only [hp, if_neg hna, if_pos ha]

theorem byte_step_t {μ : Type} (cmds : List (atcmd μ)) (st : Session μ) (tt : Nat)
    (hp : st.port.pstate = .WAIT_T) (htt : tt = 84 ∨ tt = 116) :
    byte_step cmds st tt = ({ st with port := { st.port with pstate := .WAIT_TERM } }, []) := by
  unfold byte_step
  simp only [hp, if_pos htt]

/-- After `A`, `T` the per-byte semantics goes on from `WAIT_TERM`. -/
theorem byte_steps_at {μ : Type} (cmds : List (atcmd μ)) (st : Session μ) (a tt : Nat)
    (rest : List Nat) (hst : st.port.pstate = .WAIT_A ∨ st.port.pstate = .WAIT_T)
    (ha : a = 65 ∨ a = 97) (htt : tt = 84 ∨ tt = 116) :
    byte_steps cmds st (a :: tt :: rest)
      = byte_steps cmds { st with port := { st.port with pstate := .WAIT_TERM } } rest := by
  rw [byte_steps, byte_step_a cmds st a hst ha, byte_steps,
    byte_step_t cmds _ tt rfl htt]
  rfl

theorem byte_steps_aat {μ : Type} (cmds : List (atcmd μ)) (st : Session μ) (a1 a2 tt : Nat)
    (rest : List Nat) (hst : st.port.pstate = .WAIT_A ∨ st.port.pstate = .WAIT_T)
    (ha1 : a1 = 65 ∨ a1 = 97) (ha2 : a2 = 65 ∨ a2 = 97) (htt : tt = 84 ∨ tt = 116) :
    byte_steps cmds st (a1 :: a2 :: tt :: rest) = byte_steps cmds st (a2 :: tt :: rest) := by
  rw [byte_steps_at cmds st a2 tt rest hst ha2 htt, byte_steps,
    byte_step_a cmds st a1 hst ha1,
    byte_steps_at cmds _ a2 tt rest (Or.inr rfl) ha2 htt]
  rfl

/-- C21: no byte is lost on a prefix mismatch.  In `WAIT_T` a byte other than `T`/`t`
costs one loop round that only moves to `WAIT_A` and keeps the index, and a round in
`WAIT_A` always moves to the next byte; `atport_parse` never runs out of its fuel of
two rounds per byte, whatever the transport answers.  From `WAIT_A` or `WAIT_T` the
bytes `A`/`a`, `T`/`t` lead to `WAIT_TERM` with the rest of the session (so the
command length) unchanged, and on a transport that never fails an `A`/`a` in front of
`AT` changes neither the result, the final session, the resolved commands nor the
writes other than echo. -/
theorem no_byte_lost {μ : Type} (cmds : List (atcmd μ)) (st : Session μ) (a1 a2 tt : Nat)
    (rest : List Nat) (t : Sink)
    (hst : st.port.pstate = .WAIT_A ∨ st.port.pstate = .WAIT_T)
    (ha1 : a1 = 65 ∨ a1 = 97) (ha2 : a2 = 65 ∨ a2 = 97) (htt : tt = 84 ∨ tt = 116)
    (ht : NeverFails t) :
    (∀ (buf : List Nat) (f i s : Nat) (sx : Session μ), i < buf.length →
        sx.port.pstate = .WAIT_T → ¬ (buf.getD i 0 = 84 ∨ buf.getD i 0 = 116) →
        atport_parse_loop cmds buf (f + 1) i s sx
          = atport_parse_loop cmds buf f i s
              { sx with port := { sx.port with pstate := .WAIT_A } })
      ∧ (∀ (buf : List Nat) (f i s : Nat) (sx : Session μ), i < buf.length →
        sx.port.pstate = .WAIT_A →
        ∃ (s1 : Nat) (sx1 : Session μ),
          atport_parse_loop cmds buf (f + 1) i s sx
            = atport_parse_loop cmds buf f (i + 1) s1 sx1)
      ∧ (∀ (buf : List Nat) (sx : Session μ) (tx : Sink),
        ((atport_parse cmds buf sx).run tx).1 ≠ none)
      ∧ (∀ tx : Sink, ∃ r, ((atport_parse cmds [a2, tt] st).run tx).1
          = some (r, { st with port := { st.port with pstate := .WAIT_TERM } }))
      ∧ ((atport_parse cmds (a1 :: a2 :: tt :: rest) st).run t).1
          = ((atport_parse cmds (a2 :: tt :: rest) st).run t).1
      ∧ ((atport_parse cmds (a1 :: a2 :: tt :: rest) st).run t).2.replies
          = ((atport_parse cmds (a2 :: tt :: rest) st).run t).2.replies
      ∧ ((atport_parse modem_atcommands (bytes "AAT+CSQ\r") (Session.init modem_alloc)).run
            Sink.fresh).1.map (fun r => r.2.trace) = some [(bytes "+CSQ", 0)]
      ∧ ((atport_parse modem_atcommands (bytes "AT+CSQ\r") (Session.init modem_alloc)).run
            Sink.fresh).1.map (fun r => r.2.trace) = some [(bytes "+CSQ", 0)] := by
  obtain ⟨a1', a2', _⟩ := Prog.run_neverFails
    (atport_parse cmds (a1 :: a2 :: tt :: rest) st) t ht
  obtain ⟨b1, b2, _⟩ := Prog.run_neverFails (atport_parse cmds (a2 :: tt :: rest) st) t ht
  obtain ⟨p1, p2⟩ := atport_parse_eval0 cmds (a1 :: a2 :: tt :: rest) st
  obtain ⟨q1, q2⟩ := atport_parse_eval0 cmds (a2 :: tt :: rest) st
  have hb := byte_steps_aat cmds st a1 a2 tt rest hst ha1 ha2 htt
  refine ⟨fun buf f i s sx hi hp hc => atport_parse_loop_t_replay cmds buf f i s sx hi hp hc,
    fun buf f i s sx hi hp => atport_parse_loop_a_round cmds buf f i s sx hi hp,
    ?_, ?_, ?_, ?_, by decide, by decide⟩
  · intro buf sx tx
    exact Prog.all_run _ _ (atport_parse_loop_total cmds buf (2 * buf.length + 2) 0 0 sx
      (by unfold parse_measure; split <;> omega)) tx
  · intro tx
    exact Prog.all_run _ _ (atport_parse_at cmds st a2 tt hst ha2 htt) tx
  · rw [a1', b1, p1, q1, hb]
  · rw [Sink.replies_eq, Sink.replies_eq, a2', b2, non_echo_append, non_echo_append, p2, q2,
      hb]

theorem no_byte_lost_witness :
    ((Session.init modem_alloc).port.pstate = .WAIT_A
        ∨ (Session.init modem_alloc).port.pstate = .WAIT_T)
      ∧ ((65 : Nat) = 65 ∨ (65 : Nat) = 97) ∧ ((97 : Nat) = 65 ∨ (97 : Nat) = 97)
      ∧ ((116 : Nat) = 84 ∨ (116 : Nat) = 116) ∧ NeverFails Sink.fresh
      ∧ ((atport_parse modem_atcommands (65 :: 97 :: 116 :: bytes "+CSQ\r")
            (Session.init modem_alloc)).run Sink.fresh).1
          = ((atport_parse modem_atcommands (97 :: 116 :: bytes "+CSQ\r")
            (Session.init modem_alloc)).run Sink.fresh).1
      ∧ ((atport_parse modem_atcommands (65 :: 97 :: 116 :: bytes "+CSQ\r")
            (Session.init modem_alloc)).run Sink.fresh).2.replies
          = ((atport_parse modem_atcommands (97 :: 116 :: bytes "+CSQ\r")
            (Session.init modem_alloc)).run Sink.fresh).2.replies
      ∧ ((atport_parse modem_atcommands (97 :: 116 :: bytes "+CSQ\r")
            (Session.init modem_alloc)).run Sink.fresh).2.replies
          = [[], bytes "\r\n", bytes "+CSQ: 26,99", bytes "\r\n", bytes "\r\nOK\r\n"] :=
  ⟨by decide, by decide, by decide, by decide, (fun _ hr => by cases hr),
   (no_byte_lost modem_atcommands (Session.init modem_alloc) 65 97 116 (bytes "+CSQ\r")
      Sink.fresh (by decide) (by decide) (by decide) (by decide)
      (fun _ hr => by cases hr)).2.2.2.2.1,
   (no_byte_lost modem_atcommands (Session.init modem_alloc) 65 97 116 (bytes "+CSQ\r")
      Sink.fresh (by decide) (by decide) (by decide) (by decide)
      (fun _ hr => by cases hr)).2.2.2.2.2.1,
   by decide⟩

end ModemEmul
